import Mathlib

/-!
Verification of the Feature Workflow orchestration engine against its
specification.  The definitions below are shallow embeddings of the
TypeScript sources (`featureModel.ts`, `workflowStatus.ts`, `buildLoop.ts`,
`reviewLoop.ts`, `claudeReview.ts`, `planParser.ts`, `gitUtils.ts`,
`codeReview.ts`).  Effectful calls (subprocesses, file IO, git) are
modelled by explicit oracle parameters and an event trace.
-/

namespace FeatureWorkflow

/-- The ten feature lifecycle statuses (`FeatureStatus` in `featureModel.ts`). -/
inductive FeatureStatus where
  | requested
  | draft
  | specReviewed
  | planCreated
  | planReviewed
  | readyForBuild
  | building
  | codeReview
  | testing
  | implemented
  deriving DecidableEq, Repr, Fintype

open FeatureStatus

/-- The fixed adjacency table `allowedTransitions` from `featureModel.ts`. -/
def allowedTransitions : FeatureStatus → List FeatureStatus
  | requested => [draft]
  | draft => [specReviewed]
  | specReviewed => [planCreated]
  | planCreated => [planReviewed]
  | planReviewed => [readyForBuild]
  | readyForBuild => [building]
  | building => [codeReview]
  | codeReview => [testing, building]
  | testing => [implemented, building]
  | implemented => []

/-- `canTransition(from, to)` from `featureModel.ts`: membership in the
adjacency table (the `?? false` branch cannot trigger since the table is
total over the enumerated statuses). -/
def canTransition (fromSt toSt : FeatureStatus) : Bool :=
  (allowedTransitions fromSt).contains toSt

/-- The string rendering of each status used in the status files. -/
def statusToString : FeatureStatus → String
  | requested => "requested"
  | draft => "draft"
  | specReviewed => "spec-reviewed"
  | planCreated => "plan-created"
  | planReviewed => "plan-reviewed"
  | readyForBuild => "ready-for-build"
  | building => "building"
  | codeReview => "code-review"
  | testing => "testing"
  | implemented => "implemented"

/-- The exact edge set claimed by the specification for the state machine. -/
def specEdges : List (FeatureStatus × FeatureStatus) :=
  [(requested, draft), (draft, specReviewed), (specReviewed, planCreated),
   (planCreated, planReviewed), (planReviewed, readyForBuild),
   (readyForBuild, building), (building, codeReview),
   (codeReview, testing), (codeReview, building),
   (testing, implemented), (testing, building)]

/-- C2: `canTransition` returns true exactly on the eleven edges of the
fixed adjacency table — requested→draft, draft→spec-reviewed,
spec-reviewed→plan-created, plan-created→plan-reviewed,
plan-reviewed→ready-for-build, ready-for-build→building,
building→code-review, code-review→{testing, building},
testing→{implemented, building} — false on every other pair, and
implemented is terminal (no outgoing edge). -/
theorem canTransition_matches_adjacency_table :
    (∀ f t : FeatureStatus, canTransition f t = true ↔ (f, t) ∈ specEdges) ∧
    allowedTransitions implemented = [] := by
  decide

/-!
## Verdict classifier

Shallow embedding of the regular-expression matching used by
`parseReviewerVerdict` (`buildLoop.ts`) and `parseVerdictBlock`
(`claudeReview.ts`).  All patterns have the shape
"case-insensitive literal, then `\s*`, then an ordered alternation of
literals"; since no alternative starts with a whitespace character the
greedy `\s*` never needs to backtrack, so maximal-munch matching is
faithful to the JavaScript engine.  `exec`/`test` scan left to right and
return the first position where the whole pattern matches.
-/

/-- ASCII lower-casing as performed by a case-insensitive JS regex over
the ASCII literals appearing in the verdict patterns. -/
def jsToLower (c : Char) : Char :=
  if 'A' ≤ c ∧ c ≤ 'Z' then Char.ofNat (c.toNat + 32) else c

/-- The character class `\s` of JavaScript regular expressions. -/
def isJsWs (c : Char) : Bool :=
  let n := c.toNat
  n = 0x9 || n = 0xa || n = 0xb || n = 0xc || n = 0xd || n = 0x20 ||
  n = 0xa0 || n = 0x1680 || (0x2000 ≤ n && n ≤ 0x200a) ||
  n = 0x2028 || n = 0x2029 || n = 0x202f || n = 0x205f || n = 0x3000 ||
  n = 0xfeff

/-- Case-insensitively match a literal at the head of the input,
returning the remaining input on success. -/
def matchLitCI : List Char → List Char → Option (List Char)
  | [], s => some s
  | _ :: _, [] => none
  | p :: ps, c :: cs =>
    if jsToLower p = jsToLower c then matchLitCI ps cs else none

/-- Drop a maximal run of JS whitespace (greedy `\s*`). -/
def dropJsWs (s : List Char) : List Char := s.dropWhile isJsWs

/-- Ordered alternation: index of the first alternative that matches at
the head of the input. -/
def firstAlt : List (List Char) → List Char → Option Nat
  | [], _ => none
  | a :: as, s =>
    match matchLitCI a s with
    | some _ => some 0
    | none => (firstAlt as s).map (· + 1)

/-- Try the pattern `pre` `\s*` `(alt0|alt1|...)` at the current
position. -/
def matchFieldAt (pre : List Char) (alts : List (List Char))
    (s : List Char) : Option Nat :=
  (matchLitCI pre s).bind fun r => firstAlt alts (dropJsWs r)

/-- Scan left to right for the first position where the field pattern
matches (the behaviour of `RegExp.exec` without the `g` flag). -/
def searchField (pre : List Char) (alts : List (List Char)) :
    List Char → Option Nat
  | [] => matchFieldAt pre alts []
  | s@(_ :: rest) =>
    match matchFieldAt pre alts s with
    | some i => some i
    | none => searchField pre alts rest

/-- `/\*\*Action Required\*\*:\s*(NONE|MINOR|MAJOR)/i` — returns the
index of the captured alternative (0 = NONE, 1 = MINOR, 2 = MAJOR). -/
def actionRequiredSearch (s : List Char) : Option Nat :=
  searchField ("**Action Required**:".toList)
    ["NONE".toList, "MINOR".toList, "MAJOR".toList] s

/-- `/\*\*Builder Must Fix\*\*:\s*(YES|NO)/i` — 0 = YES, 1 = NO. -/
def builderMustFixSearch (s : List Char) : Option Nat :=
  searchField ("**Builder Must Fix**:".toList)
    ["YES".toList, "NO".toList] s

/-- `/\*\*Status:\s*Major Issues Found\*\*/i.test(...)`. -/
def statusMajorFoundTest (s : List Char) : Bool :=
  (searchField ("**Status:".toList) ["Major Issues Found**".toList] s).isSome

/-- `/\*\*Status:\s*No Major Issues\*\*/i.test(...)`. -/
def statusNoMajorTest (s : List Char) : Bool :=
  (searchField ("**Status:".toList) ["No Major Issues**".toList] s).isSome

/-- `/\*\*Status:\s*Minor Issues Only\*\*/i.test(...)`. -/
def statusMinorOnlyTest (s : List Char) : Bool :=
  (searchField ("**Status:".toList) ["Minor Issues Only**".toList] s).isSome

/-- The classification produced by both verdict parsers. -/
structure Verdict where
  hasMajorIssues : Bool
  hasMinorIssues : Bool
  deriving DecidableEq, Repr

/-- `parseReviewerVerdict` from `buildLoop.ts`: structured
`**Action Required**` field first, then the `**Builder Must Fix**: NO`
fallback, then the legacy `**Status: No Major Issues**` fallback (this
variant has no `Major Issues Found` branch), then the conservative
no-issues default. -/
def parseReviewerVerdict (reviewText : String) : Verdict :=
  let s := reviewText.toList
  match actionRequiredSearch s with
  | some i => ⟨i == 2, i == 1⟩
  | none =>
    match builderMustFixSearch s with
    | some 1 => ⟨false, false⟩
    | _ =>
      if statusNoMajorTest s then ⟨false, statusMinorOnlyTest s⟩
      else ⟨false, false⟩

/-- `parseVerdictBlock` from `claudeReview.ts`: like
`parseReviewerVerdict` but with an additional legacy branch mapping
`**Status: Major Issues Found**` to MAJOR. -/
def parseVerdictBlock (reviewText : String) : Verdict :=
  let s := reviewText.toList
  match actionRequiredSearch s with
  | some i => ⟨i == 2, i == 1⟩
  | none =>
    match builderMustFixSearch s with
    | some 1 => ⟨false, false⟩
    | _ =>
      if statusMajorFoundTest s then ⟨true, false⟩
      else if statusNoMajorTest s then ⟨false, statusMinorOnlyTest s⟩
      else ⟨false, false⟩

/-- A review consisting of just the legacy major-issues marker. -/
def legacyMajorReview : String := "**Status: Major Issues Found**"

/-- C3 counterexample: the review text `**Status: Major Issues Found**`
contains the legacy marker and neither an `**Action Required**` nor a
`**Builder Must Fix**` field, yet the build-loop variant
`parseReviewerVerdict` classifies it as no-issues (NONE), not MAJOR. -/
theorem parseReviewerVerdict_misses_legacy_major :
    statusMajorFoundTest legacyMajorReview.toList = true ∧
    actionRequiredSearch legacyMajorReview.toList = none ∧
    builderMustFixSearch legacyMajorReview.toList = none ∧
    parseReviewerVerdict legacyMajorReview = ⟨false, false⟩ := by
  decide

/-- C3 (amended): for review text containing the legacy
`**Status: Major Issues Found**` marker and neither an
`**Action Required**` nor a `**Builder Must Fix**` field, the
claude-review variant `parseVerdictBlock` classifies it as MAJOR, while
the build-loop variant `parseReviewerVerdict`, which lacks that legacy
branch, never reports major issues on such text. -/
theorem legacy_major_marker_classification (t : String)
    (hmaj : statusMajorFoundTest t.toList = true)
    (hact : actionRequiredSearch t.toList = none)
    (hbmf : builderMustFixSearch t.toList = none) :
    (parseVerdictBlock t).hasMajorIssues = true ∧
    (parseReviewerVerdict t).hasMajorIssues = false := by
  have hact2 : actionRequiredSearch t.data = none := hact
  have hbmf2 : builderMustFixSearch t.data = none := hbmf
  have hmaj2 : statusMajorFoundTest t.data = true := hmaj
  constructor
  · simp [parseVerdictBlock, hact2, hbmf2, hmaj2]
  · simp only [parseReviewerVerdict, String.toList, hact2, hbmf2]
    by_cases h : statusNoMajorTest t.data = true <;> simp [h]

/-- Witness for the C3 amended theorem at the concrete legacy review. -/
theorem legacy_major_marker_classification_witness :
    (parseVerdictBlock legacyMajorReview).hasMajorIssues = true ∧
    (parseReviewerVerdict legacyMajorReview).hasMajorIssues = false :=
  legacy_major_marker_classification legacyMajorReview
    (by decide) (by decide) (by decide)

/-- C9: review text with no recognizable verdict structure — no
`**Action Required**` field, no `**Builder Must Fix**` field, and no
legacy `**Status: ...**` marker — classifies as NONE (no major and no
minor issues) in both implementations. -/
theorem no_structure_classifies_none (t : String)
    (hact : actionRequiredSearch t.toList = none)
    (hbmf : builderMustFixSearch t.toList = none)
    (hmaj : statusMajorFoundTest t.toList = false)
    (hnom : statusNoMajorTest t.toList = false)
    (_hmin : statusMinorOnlyTest t.toList = false) :
    parseReviewerVerdict t = ⟨false, false⟩ ∧
    parseVerdictBlock t = ⟨false, false⟩ := by
  have hact2 : actionRequiredSearch t.data = none := hact
  have hbmf2 : builderMustFixSearch t.data = none := hbmf
  have hmaj2 : statusMajorFoundTest t.data = false := hmaj
  have hnom2 : statusNoMajorTest t.data = false := hnom
  simp [parseReviewerVerdict, parseVerdictBlock, hact2, hbmf2, hmaj2, hnom2]

/-- Witness for C9 at a concrete unstructured review text. -/
theorem no_structure_classifies_none_witness :
    parseReviewerVerdict "Looks good to me." = ⟨false, false⟩ ∧
    parseVerdictBlock "Looks good to me." = ⟨false, false⟩ :=
  no_structure_classifies_none "Looks good to me."
    (by decide) (by decide) (by decide) (by decide) (by decide)

/-!
## Phase extractor

Shallow embedding of `parsePlanPhasesFromContent` (`planParser.ts`).
Each line is matched against
`/^##\s*Phase\s+(\d+)\s*[:.\-–—]\s*(.+)$/i`; `.` does not match line
terminators, and since every later element of the pattern starts with a
non-whitespace character the only greedy element needing backtracking is
the final `\s*` before `(.+)$`, which is modelled by `descSearch` trying
the largest whitespace consumption first.
-/

/-- JavaScript line terminators (the characters `.` does not match). -/
def isLineTerm (c : Char) : Bool :=
  let n := c.toNat
  n = 0xa || n = 0xd || n = 0x2028 || n = 0x2029

/-- The separator class `[:.\-–—]` of the phase header pattern. -/
def isSepChar (c : Char) : Bool :=
  c = ':' || c = '.' || c = '-' || c = '–' || c = '—'

/-- Numeric value of the digit run captured by `(\d+)` (the behaviour of
`parseInt(_, 10)` on a digit string). -/
def digitsToNat (ds : List Char) : Nat :=
  ds.foldl (fun n c => n * 10 + (c.toNat - 48)) 0

/-- JS `String.prototype.trim`: strip whitespace and line terminators
from both ends (the line-terminator set is contained in `isJsWs`). -/
def jsTrimList (s : List Char) : List Char :=
  ((s.dropWhile isJsWs).reverse.dropWhile isJsWs).reverse

/-- Backtracking for `\s*(.+)$` at the end of the header pattern: with
`t` the text after the separator, try consuming `k` whitespace
characters starting from the maximal run and decreasing, and return the
first remainder that is non-empty and free of line terminators. -/
def descSearch (t : List Char) : Nat → Option (List Char)
  | 0 =>
    if !t.isEmpty && t.all (fun c => !isLineTerm c) then some t else none
  | k + 1 =>
    let rest := t.drop (k + 1)
    if !rest.isEmpty && rest.all (fun c => !isLineTerm c) then some rest
    else descSearch t k

/-- Match one line against the phase header pattern, returning the phase
number and the trimmed description on success. -/
def matchPhaseHeader (line : List Char) : Option (Nat × String) :=
  match matchLitCI "##".toList line with
  | none => none
  | some r1 =>
    match matchLitCI "phase".toList (dropJsWs r1) with
    | none => none
    | some r3 =>
      if (r3.takeWhile isJsWs).isEmpty then none
      else
        let r4 := r3.dropWhile isJsWs
        let digits := r4.takeWhile Char.isDigit
        if digits.isEmpty then none
        else
          match dropJsWs (r4.dropWhile Char.isDigit) with
          | [] => none
          | c :: r7 =>
            if isSepChar c then
              match descSearch r7 (r7.takeWhile isJsWs).length with
              | none => none
              | some desc =>
                some (digitsToNat digits, String.mk (jsTrimList desc))
            else none

/-- A phase extracted from an implementation plan (`planParser.ts`). -/
structure Phase where
  number : Nat
  description : String
  content : String
  deriving DecidableEq, Repr

/-- Join accumulated lines with `"\n"` (JS `Array.prototype.join`). -/
def joinLinesNL (cs : List (List Char)) : List Char :=
  (cs.intersperse ['\n']).flatten

/-- JS `String.prototype.split("\n")` over character lists. -/
def splitLinesAux : List Char → List Char → List (List Char)
  | [], cur => [cur.reverse]
  | c :: cs, cur =>
    if c = '\n' then cur.reverse :: splitLinesAux cs []
    else splitLinesAux cs (c :: cur)

/-- Split a text into its `"\n"`-separated lines. -/
def splitLines (cs : List Char) : List (List Char) := splitLinesAux cs []

/-- Close off an accumulating phase: its content is the accumulated
lines (header line included) joined and trimmed. -/
def closePhase (n : Nat) (d : String) (cs : List (List Char)) : Phase :=
  ⟨n, d, String.mk (jsTrimList (joinLinesNL cs))⟩

/-- The line scan of `parsePlanPhasesFromContent`: on a header line the
previous phase (if any) is closed and a new one starts accumulating from
that line; other lines accumulate into the current phase or, before the
first header, are discarded. -/
def phasesLoop : List (List Char) → Option (Nat × String × List (List Char)) →
    List Phase → List Phase
  | [], none, acc => acc
  | [], some (n, d, cs), acc => acc ++ [closePhase n d cs]
  | l :: ls, cur, acc =>
    match matchPhaseHeader l with
    | some (n, d) =>
      match cur with
      | some (pn, pd, pcs) =>
        phasesLoop ls (some (n, d, [l])) (acc ++ [closePhase pn pd pcs])
      | none => phasesLoop ls (some (n, d, [l])) acc
    | none =>
      match cur with
      | some (pn, pd, pcs) => phasesLoop ls (some (pn, pd, pcs ++ [l])) acc
      | none => phasesLoop ls none acc

/-- Ordering of phases by number, used by the final sort. -/
def phaseNumberLE (a b : Phase) : Prop := a.number ≤ b.number

instance : DecidableRel phaseNumberLE :=
  fun a b => Nat.decLe a.number b.number

instance : IsTotal Phase phaseNumberLE :=
  ⟨fun a b => Nat.le_total a.number b.number⟩

instance : IsTrans Phase phaseNumberLE :=
  ⟨fun _ _ _ h1 h2 => Nat.le_trans h1 h2⟩

/-- `parsePlanPhasesFromContent`: split on `"\n"`, scan for phases, then
sort ascending by phase number (a stable ascending sort models
`phases.sort((a, b) => a.number - b.number)`). -/
def parsePlanPhasesFromContent (content : String) : List Phase :=
  List.insertionSort phaseNumberLE
    (phasesLoop (splitLines content.toList) none [])

/-- Scanning lines that contain no phase header leaves the accumulator
untouched when no phase is open. -/
theorem phasesLoop_no_header (ls : List (List Char)) (acc : List Phase)
    (h : ∀ l ∈ ls, matchPhaseHeader l = none) :
    phasesLoop ls none acc = acc := by
  induction ls with
  | nil => rfl
  | cons l ps ih =>
    have hl : matchPhaseHeader l = none := h l (List.mem_cons_self _ _)
    simp only [phasesLoop, hl]
    exact ih (fun x hx => h x (List.mem_cons_of_mem _ hx))

/-- A plan whose headers appear in the textual order Phase 2, Phase 1,
Phase 3. -/
def outOfOrderPlan : String :=
  "Intro text is ignored.\n## Phase 2: Second\nbody two\n## Phase 1: First\nbody one\n## Phase 3: Third\nbody three"

/-- C7: the extracted phase list is always sorted ascending by phase
number; on the plan with headers in textual order Phase 2, Phase 1,
Phase 3 the result is [1, 2, 3], each phase's content being exactly the
text from its header line to the line before the next header (or
document end); and any lines preceding the first header are discarded. -/
theorem extractPhases_sorted_and_exact :
    (∀ content : String,
      List.Sorted phaseNumberLE (parsePlanPhasesFromContent content)) ∧
    parsePlanPhasesFromContent outOfOrderPlan =
      [⟨1, "First", "## Phase 1: First\nbody one"⟩,
       ⟨2, "Second", "## Phase 2: Second\nbody two"⟩,
       ⟨3, "Third", "## Phase 3: Third\nbody three"⟩] ∧
    (∀ (pre ls : List (List Char)),
      (∀ l ∈ pre, matchPhaseHeader l = none) →
      phasesLoop (pre ++ ls) none [] = phasesLoop ls none []) := by
  refine ⟨?_, ?_, ?_⟩
  · intro content
    exact List.sorted_insertionSort _ _
  · decide
  · intro pre ls h
    induction pre with
    | nil => rfl
    | cons l ps ih =>
      have hl : matchPhaseHeader l = none := h l (List.mem_cons_self _ _)
      simp only [List.cons_append, phasesLoop, hl]
      exact ih (fun x hx => h x (List.mem_cons_of_mem _ hx))

/-- Witness for C7 instantiating the discard conjunct at concrete
lines. -/
theorem extractPhases_sorted_and_exact_witness :
    phasesLoop (["Intro text is ignored.".toList] ++
        ["## Phase 1: First".toList]) none [] =
      phasesLoop ["## Phase 1: First".toList] none [] :=
  extractPhases_sorted_and_exact.2.2 ["Intro text is ignored.".toList]
    ["## Phase 1: First".toList] (by decide)

/-- C8 (extractor part): a plan text none of whose lines matches the
phase header pattern yields the empty phase list, not an error. -/
theorem extractPhases_no_headers_empty (content : String)
    (h : ∀ l ∈ splitLines content.toList, matchPhaseHeader l = none) :
    parsePlanPhasesFromContent content = [] := by
  unfold parsePlanPhasesFromContent
  rw [phasesLoop_no_header _ _ h]
  rfl

/-!
## Status file: frontmatter parsing and status updates

Shallow embedding of `parseFrontmatter` (`utils/yaml.ts`) and
`updateFeatureStatus` / `markSpecApproved` (`workflowStatus.ts`,
`workflowCommands.ts`).  The impure timestamp (`new Date()`) is passed in
as the `now` argument.
-/

/-- Exact (case-sensitive) prefix test on character lists. -/
def startsWithLit : List Char → List Char → Bool
  | [], _ => true
  | _ :: _, [] => false
  | p :: ps, c :: cs => p = c && startsWithLit ps cs

/-- `String.prototype.indexOf(pat, from)` over character lists: `s` is
the input already shortened to start at index `i` of the original
string; returns the index in the original string of the first
occurrence. -/
def indexOfSubAux (pat : List Char) : List Char → Nat → Option Nat
  | [], i => if pat.isEmpty then some i else none
  | s@(_ :: rest), i =>
    if startsWithLit pat s then some i else indexOfSubAux pat rest (i + 1)

/-- JS `String.prototype.trimStart` (same whitespace set as `trim`). -/
def jsTrimStartList (s : List Char) : List Char := s.dropWhile isJsWs

/-- JS `String.prototype.split(sep)` for a single-character separator. -/
def splitOnCharAux (sep : Char) : List Char → List Char → List (List Char)
  | [], cur => [cur.reverse]
  | c :: cs, cur =>
    if c = sep then cur.reverse :: splitOnCharAux sep cs []
    else splitOnCharAux sep cs (c :: cur)

/-- Split on a single-character separator. -/
def splitOnChar (sep : Char) (cs : List Char) : List (List Char) :=
  splitOnCharAux sep cs []

/-- Drop one trailing carriage return (the `\r?` of `split(/\r?\n/)`,
applied to the reversed accumulator at a `\n`). -/
def dropLeadCR : List Char → List Char
  | c :: rest => if c = '\r' then rest else c :: rest
  | [] => []

/-- `raw.split(/\r?\n/)`: split on `"\n"`, additionally consuming a
carriage return immediately before each matched newline. -/
def splitFMLinesAux : List Char → List Char → List (List Char)
  | [], cur => [cur.reverse]
  | c :: cs, cur =>
    if c = '\n' then (dropLeadCR cur).reverse :: splitFMLinesAux cs []
    else splitFMLinesAux cs (c :: cur)

/-- Split the raw frontmatter block into its lines. -/
def splitFMLines (cs : List Char) : List (List Char) := splitFMLinesAux cs []

/-- Rejoin the post-key segments with `":"` (JS `rest.join(":")`). -/
def joinColon (cs : List (List Char)) : List Char :=
  (cs.intersperse [':']).flatten

/-- JS object assignment `frontmatter[k] = v` on an insertion-ordered
association list: update in place if the key exists, else append. -/
def fmAssign (fm : List (String × String)) (k v : String) :
    List (String × String) :=
  if fm.any (fun p => p.1 = k) then
    fm.map (fun p => if p.1 = k then (k, v) else p)
  else fm ++ [(k, v)]

/-- Parse the raw frontmatter lines: `const [k, ...rest] =
line.split(":")`; skip the line if the pre-colon part is empty or there
is no colon, else assign the trimmed key and the trimmed re-joined
remainder. -/
def fmFromLines : List (List Char) → List (String × String) →
    List (String × String)
  | [], fm => fm
  | line :: ls, fm =>
    match splitOnChar ':' line with
    | [] => fmFromLines ls fm
    | k :: rest =>
      if k.isEmpty || rest.isEmpty then fmFromLines ls fm
      else
        fmFromLines ls
          (fmAssign fm (String.mk (jsTrimList k))
            (String.mk (jsTrimList (joinColon rest))))

/-- `parseFrontmatter` from `utils/yaml.ts`: a document starting with
`---` up to the first `"\n---"` found from index 3 is the frontmatter;
everything after that delimiter plus one character is the body. -/
def parseFrontmatterL (cs : List Char) :
    List (String × String) × List Char :=
  if !startsWithLit "---".toList cs then ([], cs)
  else
    match indexOfSubAux "\n---".toList (cs.drop 3) 3 with
    | none => ([], cs)
    | some endIdx =>
      let raw := jsTrimList ((cs.take endIdx).drop 3)
      let body := cs.drop (endIdx + 4)
      (fmFromLines (splitFMLines raw) [], body)

/-- One serialized frontmatter line `key: value`. -/
def fmEntryLine (p : String × String) : List Char :=
  p.1.toList ++ ": ".toList ++ p.2.toList

/-- The rebuilt YAML block `---\n` + joined entries + `\n---\n`. -/
def fmYaml (fm : List (String × String)) : List Char :=
  "---\n".toList ++ joinLinesNL (fm.map fmEntryLine) ++ "\n---\n".toList

/-- One history line `<now>  [<source>]  <message>\n`. -/
def mkHistoryLine (now source message : String) : List Char :=
  now.toList ++ "  [".toList ++ source.toList ++ "]  ".toList ++
    message.toList ++ ['\n']

/-- `updateFeatureStatus` from `workflowStatus.ts` as a pure function on
the status-file content: parse, set `status` in the frontmatter, rebuild
the YAML block, and prepend one history line to the trimmed body (adding
a trailing newline if the old body lacks one).  No transition check of
any kind is performed. -/
def updateFeatureStatusContent (content : String)
    (newStatus source now message : String) : String :=
  let parsed := parseFrontmatterL content.toList
  let fm2 := fmAssign parsed.1 "status" newStatus
  let historyLine := mkHistoryLine now source message
  let trimmedBody := jsTrimStartList parsed.2
  let updatedBody := historyLine ++
    (if trimmedBody.isEmpty then []
     else trimmedBody ++
       (if trimmedBody.getLast? = some '\n' then [] else ['\n']))
  String.mk (fmYaml fm2 ++ ['\n'] ++ updatedBody)

/-- `markSpecApproved` from `workflowCommands.ts`: unconditionally set
the status to `spec-reviewed` with a `user` history entry. -/
def markSpecApprovedContent (content : String) (now : String) : String :=
  updateFeatureStatusContent content "spec-reviewed" "user" now
    "Marked spec as approved"

/-- The status a reader of the status file observes, via the same parser
`loadFeatures` uses. -/
def statusOf (content : String) : Option String :=
  (parseFrontmatterL content.toList).1.lookup "status"

/-- The history body a reader observes (leading whitespace ignored, as
the updater itself does). -/
def obsBody (content : String) : List Char :=
  jsTrimStartList (parseFrontmatterL content.toList).2

/-!
## Round-trip lemmas for the status file

`updateFeatureStatus` parses the file, rewrites the YAML block and
writes it back; a reader (`loadFeatures`) parses it again.  The lemmas
below show that for well-formed frontmatter the rebuilt file parses back
to exactly the updated frontmatter and the prepended history body.
-/

/-- A canonical status-file content: the exact shape produced by the
writer (`fmYaml fm ++ "\n" ++ body`), which is also the shape
`createNewFeature` emits. -/
def mkStatusContent (fm : List (String × String)) (B : String) : String :=
  String.mk (fmYaml fm ++ '\n' :: B.toList)

/-- Well-formedness of a frontmatter key: nonempty, trim-fixed, free of
newlines and colons, and not starting with a dash. -/
def wfKey (k : String) : Prop :=
  k.toList ≠ [] ∧ jsTrimList k.toList = k.toList ∧
    (∀ c ∈ k.toList, c ≠ '\n' ∧ c ≠ ':') ∧ k.toList.head? ≠ some '-'

/-- Well-formedness of a frontmatter value: nonempty, trim-fixed, and
newline-free. -/
def wfVal (v : String) : Prop :=
  v.toList ≠ [] ∧ jsTrimList v.toList = v.toList ∧ ∀ c ∈ v.toList, c ≠ '\n'

/-- Well-formedness of one frontmatter entry. -/
def wfEntry (p : String × String) : Prop := wfKey p.1 ∧ wfVal p.2

instance : DecidablePred wfKey := fun k => by
  unfold wfKey; infer_instance

instance : DecidablePred wfVal := fun v => by
  unfold wfVal; infer_instance

instance : DecidablePred wfEntry := fun p => by
  unfold wfEntry; infer_instance

/-- Well-formed frontmatter: all entries well-formed, keys distinct. -/
def wfFM (fm : List (String × String)) : Prop :=
  (∀ p ∈ fm, wfEntry p) ∧ (fm.map Prod.fst).Nodup

instance : DecidablePred wfFM := fun fm => by
  unfold wfFM; infer_instance

/-- Trimming is monotone on length. -/
theorem jsTrimList_length_le (s : List Char) :
    (jsTrimList s).length ≤ s.length := by
  unfold jsTrimList
  rw [List.length_reverse]
  calc (List.dropWhile isJsWs (List.dropWhile isJsWs s).reverse).length
      ≤ (List.dropWhile isJsWs s).reverse.length :=
        (List.dropWhile_suffix _).length_le
    _ = (List.dropWhile isJsWs s).length := List.length_reverse _
    _ ≤ s.length := (List.dropWhile_suffix _).length_le

/-- Trimming drops a leading whitespace character. -/
theorem jsTrimList_cons_ws (c : Char) (s : List Char)
    (h : isJsWs c = true) : jsTrimList (c :: s) = jsTrimList s := by
  unfold jsTrimList
  rw [List.dropWhile_cons, if_pos h]

/-- A list fixed by trimming has a non-whitespace head and last. -/
theorem trimFixed_ends (s : List Char) (h : jsTrimList s = s) :
    (∀ c, s.head? = some c → isJsWs c = false) ∧
    (∀ c, s.getLast? = some c → isJsWs c = false) := by
  have hlenB : s.length ≤ (List.dropWhile isJsWs s).length := by
    have h1 := congrArg List.length h
    unfold jsTrimList at h1
    rw [List.length_reverse] at h1
    calc s.length
        = (List.dropWhile isJsWs
            (List.dropWhile isJsWs s).reverse).length := h1.symm
      _ ≤ (List.dropWhile isJsWs s).reverse.length :=
          (List.dropWhile_suffix _).length_le
      _ = (List.dropWhile isJsWs s).length := List.length_reverse _
  have hdrop : List.dropWhile isJsWs s = s :=
    (List.dropWhile_suffix isJsWs (l := s)).sublist.eq_of_length
      (Nat.le_antisymm (List.dropWhile_suffix _).length_le hlenB)
  have hdropRev : List.dropWhile isJsWs s.reverse = s.reverse := by
    have h2 : (List.dropWhile isJsWs
        (List.dropWhile isJsWs s).reverse).reverse = s := by
      unfold jsTrimList at h
      exact h
    rw [hdrop] at h2
    calc List.dropWhile isJsWs s.reverse
        = (List.dropWhile isJsWs s.reverse).reverse.reverse := by
          rw [List.reverse_reverse]
      _ = s.reverse := by rw [h2]
  constructor
  · intro c hc
    cases s with
    | nil => simp at hc
    | cons x xs =>
      obtain rfl : x = c := by simpa using hc
      by_contra hws
      have hws2 : isJsWs x = true := by
        revert hws; cases isJsWs x <;> simp
      rw [List.dropWhile_cons, if_pos hws2] at hdrop
      have := congrArg List.length hdrop
      have hle := (List.dropWhile_suffix isJsWs (l := xs)).length_le
      simp at this
      omega
  · intro c hc
    have hc2 : s.reverse.head? = some c := by
      rw [List.head?_reverse]; exact hc
    cases hrev : s.reverse with
    | nil => rw [hrev] at hc2; simp at hc2
    | cons x xs =>
      rw [hrev] at hc2 hdropRev
      obtain rfl : x = c := by simpa using hc2
      by_contra hws
      have hws2 : isJsWs x = true := by
        revert hws; cases isJsWs x <;> simp
      rw [List.dropWhile_cons, if_pos hws2] at hdropRev
      have := congrArg List.length hdropRev
      have hle := (List.dropWhile_suffix isJsWs (l := xs)).length_le
      simp at this
      omega

/-- A list with non-whitespace head and last is fixed by trimming. -/
theorem jsTrimList_of_ends (s : List Char)
    (h1 : ∀ c, s.head? = some c → isJsWs c = false)
    (h2 : ∀ c, s.getLast? = some c → isJsWs c = false) :
    jsTrimList s = s := by
  unfold jsTrimList
  have hd : List.dropWhile isJsWs s = s := by
    cases s with
    | nil => rfl
    | cons x xs =>
      rw [List.dropWhile_cons, if_neg]
      simp [h1 x rfl]
  rw [hd]
  have hr : List.dropWhile isJsWs s.reverse = s.reverse := by
    cases hrev : s.reverse with
    | nil => rfl
    | cons x xs =>
      rw [List.dropWhile_cons, if_neg]
      have hx : s.getLast? = some x := by
        rw [← List.head?_reverse, hrev]; rfl
      simp [h2 x hx]
  rw [hr, List.reverse_reverse]

/-- Splitting a separator-free list produces a single segment. -/
theorem splitOnCharAux_no_sep (sep : Char) (l cur : List Char)
    (h : ∀ c ∈ l, c ≠ sep) :
    splitOnCharAux sep l cur = [cur.reverse ++ l] := by
  induction l generalizing cur with
  | nil => simp [splitOnCharAux]
  | cons c cs ih =>
    have hc : c ≠ sep := h c (List.mem_cons_self _ _)
    simp only [splitOnCharAux, if_neg hc]
    rw [ih (c :: cur) (fun x hx => h x (List.mem_cons_of_mem _ hx))]
    simp

/-- Splitting at the first separator after a separator-free prefix. -/
theorem splitOnCharAux_sep_split (sep : Char) (l cur rest : List Char)
    (h : ∀ c ∈ l, c ≠ sep) :
    splitOnCharAux sep (l ++ sep :: rest) cur =
      (cur.reverse ++ l) :: splitOnCharAux sep rest [] := by
  induction l generalizing cur with
  | nil => simp [splitOnCharAux]
  | cons c cs ih =>
    have hc : c ≠ sep := h c (List.mem_cons_self _ _)
    simp only [List.cons_append, splitOnCharAux, if_neg hc, List.append_eq]
    rw [ih (c :: cur) (fun x hx => h x (List.mem_cons_of_mem _ hx))]
    simp

/-- `split` never returns an empty array. -/
theorem splitOnCharAux_ne_nil (sep : Char) (l cur : List Char) :
    splitOnCharAux sep l cur ≠ [] := by
  induction l generalizing cur with
  | nil => simp [splitOnCharAux]
  | cons c cs ih =>
    simp only [splitOnCharAux]
    split
    · simp
    · exact ih (c :: cur)

/-- `join(":")` of a single segment. -/
theorem joinColon_single (a : List Char) : joinColon [a] = a := by
  simp [joinColon, List.intersperse]

/-- `join(":")` of a nonempty tail. -/
theorem joinColon_cons (a : List Char) (l : List (List Char))
    (h : l ≠ []) : joinColon (a :: l) = a ++ ':' :: joinColon l := by
  cases l with
  | nil => exact absurd rfl h
  | cons b t => simp [joinColon, List.intersperse]

/-- `rest.join(":")` inverts `split(":")`. -/
theorem joinColon_splitOnCharAux (l cur : List Char) :
    joinColon (splitOnCharAux ':' l cur) = cur.reverse ++ l := by
  induction l generalizing cur with
  | nil => simp [splitOnCharAux, joinColon_single]
  | cons c cs ih =>
    by_cases hc : c = ':'
    · subst hc
      have hstep : splitOnCharAux ':' (':' :: cs) cur =
          cur.reverse :: splitOnCharAux ':' cs [] := by
        simp [splitOnCharAux]
      rw [hstep, joinColon_cons _ _ (splitOnCharAux_ne_nil _ _ _), ih []]
      simp
    · simp only [splitOnCharAux, if_neg hc]
      rw [ih (c :: cur)]
      simp

/-- Scanning a newline-free block produces a single frontmatter line. -/
theorem splitFMLinesAux_no_nl (l cur : List Char)
    (h : ∀ c ∈ l, c ≠ '\n') :
    splitFMLinesAux l cur = [cur.reverse ++ l] := by
  induction l generalizing cur with
  | nil => simp [splitFMLinesAux]
  | cons c cs ih =>
    have hc : c ≠ '\n' := h c (List.mem_cons_self _ _)
    simp only [splitFMLinesAux, if_neg hc]
    rw [ih (c :: cur) (fun x hx => h x (List.mem_cons_of_mem _ hx))]
    simp

/-- Scanning up to the first newline closes one frontmatter line. -/
theorem splitFMLinesAux_nl (l rest cur : List Char)
    (h : ∀ c ∈ l, c ≠ '\n') :
    splitFMLinesAux (l ++ '\n' :: rest) cur =
      (dropLeadCR (l.reverse ++ cur)).reverse :: splitFMLinesAux rest [] := by
  induction l generalizing cur with
  | nil => simp [splitFMLinesAux]
  | cons c cs ih =>
    have hc : c ≠ '\n' := h c (List.mem_cons_self _ _)
    simp only [List.cons_append, splitFMLinesAux, if_neg hc, List.append_eq]
    rw [ih (c :: cur) (fun x hx => h x (List.mem_cons_of_mem _ hx))]
    simp

/-- Reversal through `dropLeadCR` is the identity when the line does not
end in a carriage return. -/
theorem dropLeadCR_reverse (l : List Char) (h : l.getLast? ≠ some '\r') :
    (dropLeadCR l.reverse).reverse = l := by
  cases hrev : l.reverse with
  | nil =>
    have hl : l = [] := List.reverse_eq_nil_iff.mp hrev
    subst hl; rfl
  | cons x xs =>
    have hx : l.getLast? = some x := by
      rw [← List.head?_reverse, hrev]; rfl
    have hxr : x ≠ '\r' := fun hh => h (hh ▸ hx)
    simp only [dropLeadCR, if_neg hxr]
    rw [← hrev, List.reverse_reverse]

/-- Joining with `"\n"` steps once for two or more lines. -/
theorem joinLinesNL_cons_cons (l m : List Char) (t : List (List Char)) :
    joinLinesNL (l :: m :: t) = l ++ '\n' :: joinLinesNL (m :: t) := by
  simp [joinLinesNL, List.intersperse]

/-- `split(/\r?\n/)` inverts `join("\n")` for newline-free lines without
trailing carriage returns. -/
theorem splitFMLines_join (lines : List (List Char)) (hne : lines ≠ [])
    (h : ∀ l ∈ lines, (∀ c ∈ l, c ≠ '\n') ∧ l.getLast? ≠ some '\r') :
    splitFMLines (joinLinesNL lines) = lines := by
  induction lines with
  | nil => exact absurd rfl hne
  | cons l ls ih =>
    cases ls with
    | nil =>
      show splitFMLinesAux (joinLinesNL [l]) [] = [l]
      have hj : joinLinesNL [l] = l := by simp [joinLinesNL]
      rw [hj, splitFMLinesAux_no_nl l [] (h l (List.mem_cons_self _ _)).1]
      simp
    | cons m t =>
      rw [joinLinesNL_cons_cons]
      show splitFMLinesAux (l ++ '\n' :: joinLinesNL (m :: t)) [] =
        l :: m :: t
      rw [splitFMLinesAux_nl l _ [] (h l (List.mem_cons_self _ _)).1]
      rw [List.append_nil,
        dropLeadCR_reverse l (h l (List.mem_cons_self _ _)).2]
      have := ih (by simp)
        (fun x hx => h x (List.mem_cons_of_mem _ hx))
      exact congrArg (fun x => l :: x) this

/-- The delimiter `"\n---"` searched for by `parseFrontmatter`. -/
def nlFencePat : List Char := "\n---".toList

/-- One scan step at a non-matching position. -/
theorem indexOfSubAux_cons_false (pat : List Char) (c : Char)
    (s : List Char) (i : Nat) (h : startsWithLit pat (c :: s) = false) :
    indexOfSubAux pat (c :: s) i = indexOfSubAux pat s (i + 1) := by
  simp only [indexOfSubAux, h, Bool.false_eq_true, if_false]

/-- One scan step at a matching position. -/
theorem indexOfSubAux_cons_true (pat : List Char) (c : Char)
    (s : List Char) (i : Nat) (h : startsWithLit pat (c :: s) = true) :
    indexOfSubAux pat (c :: s) i = some i := by
  simp only [indexOfSubAux, h, if_true]

/-- The scan for `"\n---"` passes over a newline-free block. -/
theorem indexOfSub_skip (blk s : List Char) (i : Nat)
    (h : ∀ c ∈ blk, c ≠ '\n') :
    indexOfSubAux nlFencePat (blk ++ s) i =
      indexOfSubAux nlFencePat s (i + blk.length) := by
  induction blk generalizing i with
  | nil => simp
  | cons c cs ih =>
    have hc : c ≠ '\n' := h c (List.mem_cons_self _ _)
    have hpref : startsWithLit nlFencePat (c :: (cs ++ s)) = false := by
      simp [nlFencePat, startsWithLit, Ne.symm hc]
    rw [List.cons_append, indexOfSubAux_cons_false _ _ _ _ hpref]
    rw [ih (i + 1) (fun x hx => h x (List.mem_cons_of_mem _ hx))]
    have harith : i + 1 + cs.length = i + (c :: cs).length := by
      simp; omega
    rw [harith]

/-- The scan passes over a newline followed by one frontmatter line that
does not start with a dash. -/
theorem indexOfSub_line (l tail : List Char) (i : Nat) (hne : l ≠ [])
    (hh : l.head? ≠ some '-') (hnl : ∀ c ∈ l, c ≠ '\n') :
    indexOfSubAux nlFencePat ('\n' :: (l ++ tail)) i =
      indexOfSubAux nlFencePat tail (i + 1 + l.length) := by
  cases l with
  | nil => exact absurd rfl hne
  | cons x xs =>
    have hx : x ≠ '-' := by
      intro hxx
      exact hh (by simp [hxx])
    have hpref : startsWithLit nlFencePat
        ('\n' :: ((x :: xs) ++ tail)) = false := by
      simp [nlFencePat, startsWithLit, Ne.symm hx]
    rw [indexOfSubAux_cons_false _ _ _ _ hpref]
    rw [indexOfSub_skip (x :: xs) tail (i + 1) hnl]

/-- The scan over the whole rebuilt YAML block finds the closing fence:
the first `"\n---"` occurrence after the opening fence is exactly at the
end of the joined entry lines. -/
theorem indexOfSub_yaml (lines : List (List Char)) (rest : List Char)
    (i : Nat)
    (h : ∀ l ∈ lines, l ≠ [] ∧ l.head? ≠ some '-' ∧ ∀ c ∈ l, c ≠ '\n') :
    indexOfSubAux nlFencePat
      ('\n' :: (joinLinesNL lines ++ '\n' :: '-' :: '-' :: '-' :: rest))
      i = some (i + 1 + (joinLinesNL lines).length) := by
  induction lines generalizing i with
  | nil =>
    have h1 : startsWithLit nlFencePat
        ('\n' :: '\n' :: '-' :: '-' :: '-' :: rest) = false := by
      simp [nlFencePat, startsWithLit]
    have h2 : startsWithLit nlFencePat
        ('\n' :: '-' :: '-' :: '-' :: rest) = true := by
      simp [nlFencePat, startsWithLit]
    simp [joinLinesNL, indexOfSubAux, h1, h2]
  | cons l ls ih =>
    obtain ⟨hne, hh, hnl⟩ := h l (List.mem_cons_self _ _)
    cases ls with
    | nil =>
      have hj : joinLinesNL [l] = l := by simp [joinLinesNL]
      rw [hj, indexOfSub_line l _ i hne hh hnl]
      have h2 : startsWithLit nlFencePat
          ('\n' :: '-' :: '-' :: '-' :: rest) = true := by
        simp [nlFencePat, startsWithLit]
      simp [indexOfSubAux, h2]
    | cons m t =>
      rw [joinLinesNL_cons_cons]
      have hshape : (l ++ '\n' :: joinLinesNL (m :: t)) ++
          '\n' :: '-' :: '-' :: '-' :: rest =
          l ++ ('\n' :: (joinLinesNL (m :: t) ++
            '\n' :: '-' :: '-' :: '-' :: rest)) := by
        simp
      rw [hshape, indexOfSub_line l _ i hne hh hnl]
      rw [ih _ (fun x hx => h x (List.mem_cons_of_mem _ hx))]
      congr 1
      simp [List.length_append]
      omega

/-- The head of the joined lines is the head of the first line. -/
theorem joinLinesNL_head? (l : List Char) (ls : List (List Char))
    (hne : l ≠ []) : (joinLinesNL (l :: ls)).head? = l.head? := by
  cases ls with
  | nil => simp [joinLinesNL]
  | cons m t =>
    rw [joinLinesNL_cons_cons]
    cases l with
    | nil => exact absurd rfl hne
    | cons x xs => rfl

/-- The last character of the joined lines is the last character of the
last line. -/
theorem joinLinesNL_getLast? (lines : List (List Char)) (last : List Char)
    (hlast : lines.getLast? = some last) (hne : last ≠ []) :
    (joinLinesNL lines).getLast? = last.getLast? := by
  induction lines with
  | nil => simp at hlast
  | cons l ls ih =>
    cases ls with
    | nil =>
      have hl : l = last := by simpa using hlast
      subst hl
      simp [joinLinesNL]
    | cons m t =>
      have hlast2 : (m :: t).getLast? = some last := by
        rw [← hlast, List.getLast?_cons_cons]
      have hJ := ih hlast2
      obtain ⟨y, hy⟩ : ∃ y, last.getLast? = some y :=
        Option.isSome_iff_exists.mp (List.getLast?_isSome.mpr hne)
      rw [joinLinesNL_cons_cons, List.getLast?_append]
      have hcons : ('\n' :: joinLinesNL (m :: t)).getLast? = some y := by
        rw [List.getLast?_cons, hJ, hy]
        rfl
      rw [hcons]
      rw [hy]
      rfl

/-- A serialized frontmatter line is nonempty. -/
theorem fmEntryLine_ne_nil (p : String × String) : fmEntryLine p ≠ [] := by
  simp [fmEntryLine]

/-- Its head is the head of the key. -/
theorem fmEntryLine_head? (k v : String) (h : k.toList ≠ []) :
    (fmEntryLine (k, v)).head? = k.toList.head? := by
  cases hk : k.toList with
  | nil => exact absurd hk h
  | cons c t =>
    have hk2 : k.data = c :: t := hk
    simp [fmEntryLine, hk2]

/-- It contains no newline when key and value are newline-free. -/
theorem fmEntryLine_no_nl (k v : String)
    (hk : ∀ c ∈ k.toList, c ≠ '\n' ∧ c ≠ ':')
    (hv : ∀ c ∈ v.toList, c ≠ '\n') :
    ∀ c ∈ fmEntryLine (k, v), c ≠ '\n' := by
  intro c hc
  simp only [fmEntryLine, List.mem_append] at hc
  rcases hc with (h | h) | h
  · exact (hk c h).1
  · rcases (by simpa using h : c = ':' ∨ c = ' ') with h2 | h2 <;>
      (subst h2; decide)
  · exact hv c h

/-- Its last character is the last character of the value. -/
theorem fmEntryLine_getLast? (k v : String) (h : v.toList ≠ []) :
    (fmEntryLine (k, v)).getLast? = v.toList.getLast? := by
  obtain ⟨y, hy⟩ : ∃ y, v.toList.getLast? = some y :=
    Option.isSome_iff_exists.mp (List.getLast?_isSome.mpr h)
  have hy2 : v.data.getLast? = some y := hy
  simp [fmEntryLine, List.getLast?_append, List.getLast?_cons, hy2]

/-- Assignment of a fresh key appends the entry. -/
theorem fmAssign_not_mem (fm : List (String × String)) (k v : String)
    (h : fm.any (fun p => p.1 = k) = false) :
    fmAssign fm k v = fm ++ [(k, v)] := by
  simp only [fmAssign, h, Bool.false_eq_true, if_false]

/-- `fmAssign` never empties the frontmatter. -/
theorem fmAssign_ne_nil (fm : List (String × String)) (k v : String) :
    fmAssign fm k v ≠ [] := by
  unfold fmAssign
  split
  · intro hcon
    rw [List.map_eq_nil_iff] at hcon
    subst hcon
    simp_all
  · simp

/-- Looking up an updated key finds the new value. -/
theorem lookup_map_update (fm : List (String × String)) (k v : String)
    (h : fm.any (fun p => p.1 = k) = true) :
    (fm.map (fun p => if p.1 = k then (k, v) else p)).lookup k = some v := by
  induction fm with
  | nil => simp at h
  | cons p ps ih =>
    by_cases hp : p.1 = k
    · have hhead : (if p.1 = k then (k, v) else p) = (k, v) := if_pos hp
      rw [List.map_cons, hhead]
      simp [List.lookup]
    · have h2 : ps.any (fun q => q.1 = k) = true := by
        simpa [List.any_cons, hp] using h
      have hhead : (if p.1 = k then (k, v) else p) = p := if_neg hp
      rw [List.map_cons, hhead]
      have hbeq : (k == p.1) = false :=
        beq_eq_false_iff_ne.mpr (Ne.symm hp)
      simp [List.lookup, hbeq, ih h2]

/-- Looking up a freshly-appended key finds the new value. -/
theorem lookup_append_fresh (fm : List (String × String)) (k v : String)
    (h : fm.any (fun p => p.1 = k) = false) :
    (fm ++ [(k, v)]).lookup k = some v := by
  induction fm with
  | nil => simp [List.lookup]
  | cons p ps ih =>
    have hp : p.1 ≠ k := by
      intro he
      simp [List.any_cons, he] at h
    have h2 : ps.any (fun q => q.1 = k) = false := by
      simpa [List.any_cons, hp] using h
    have hbeq : (k == p.1) = false :=
      beq_eq_false_iff_ne.mpr (Ne.symm hp)
    simp [List.lookup, hbeq, ih h2]

/-- After `fmAssign fm k v`, looking up `k` yields `v`. -/
theorem lookup_fmAssign (fm : List (String × String)) (k v : String) :
    (fmAssign fm k v).lookup k = some v := by
  by_cases hmem : fm.any (fun p => p.1 = k) = true
  · rw [fmAssign, if_pos hmem]
    exact lookup_map_update fm k v hmem
  · have hf : fm.any (fun p => p.1 = k) = false := by
      revert hmem; cases fm.any (fun p => p.1 = k) <;> simp
    rw [fmAssign_not_mem fm k v hf]
    exact lookup_append_fresh fm k v hf

/-- `fmAssign` with a well-formed key and value preserves
well-formedness. -/
theorem wfFM_fmAssign (fm : List (String × String)) (k v : String)
    (hwf : wfFM fm) (hk : wfKey k) (hv : wfVal v) :
    wfFM (fmAssign fm k v) := by
  obtain ⟨hent, hnd⟩ := hwf
  by_cases hmem : fm.any (fun p => p.1 = k) = true
  · rw [fmAssign, if_pos hmem]
    constructor
    · intro p hp
      rcases List.mem_map.mp hp with ⟨q, hq, rfl⟩
      by_cases hqk : q.1 = k
      · simp only [if_pos hqk]
        exact ⟨hk, hv⟩
      · simp only [if_neg hqk]
        exact hent q hq
    · have hkeys : (fm.map (fun p => if p.1 = k then (k, v) else p)).map
          Prod.fst = fm.map Prod.fst := by
        rw [List.map_map]
        apply List.map_congr_left
        intro p _
        by_cases hqk : p.1 = k
        · simp [hqk]
        · simp [hqk]
      rw [hkeys]
      exact hnd
  · have hf : fm.any (fun p => p.1 = k) = false := by
      revert hmem; cases fm.any (fun p => p.1 = k) <;> simp
    rw [fmAssign_not_mem fm k v hf]
    constructor
    · intro p hp
      rcases List.mem_append.mp hp with h | h
      · exact hent p h
      · have : p = (k, v) := by simpa using h
        subst this
        exact ⟨hk, hv⟩
    · rw [List.map_append]
      rw [List.nodup_append]
      refine ⟨hnd, by simp, ?_⟩
      intro a ha hb
      have hak : a = k := by simpa using hb
      subst hak
      rcases List.mem_map.mp ha with ⟨q, hq, hqa⟩
      have : fm.any (fun p => p.1 = a) = true :=
        List.any_eq_true.mpr ⟨q, hq, by simp [hqa]⟩
      rw [this] at hf
      exact Bool.true_eq_false.mp hf

/-- Parsing the serialized lines of a well-formed frontmatter with
distinct keys reproduces exactly the original entries. -/
theorem fmFromLines_entries (fm acc : List (String × String))
    (hwf : ∀ p ∈ fm, wfEntry p)
    (hfresh : ∀ p ∈ fm, acc.any (fun q => q.1 = p.1) = false)
    (hnd : (fm.map Prod.fst).Nodup) :
    fmFromLines (fm.map fmEntryLine) acc = acc ++ fm := by
  induction fm generalizing acc with
  | nil => simp [fmFromLines]
  | cons p ps ih =>
    obtain ⟨k, v⟩ := p
    obtain ⟨hk, hv⟩ := hwf (k, v) (List.mem_cons_self _ _)
    have hline : fmEntryLine (k, v) = k.toList ++ ':' :: ' ' :: v.toList := by
      simp [fmEntryLine]
    have hsplit : splitOnChar ':' (fmEntryLine (k, v)) =
        k.toList :: splitOnCharAux ':' (' ' :: v.toList) [] := by
      rw [hline]
      unfold splitOnChar
      rw [splitOnCharAux_sep_split ':' k.toList [] _
        (fun c hc => (hk.2.2.1 c hc).2)]
      simp
    have hkne : k.toList.isEmpty = false := by
      cases hkl : k.toList with
      | nil => exact absurd hkl hk.1
      | cons a b => rfl
    have hrne : (splitOnCharAux ':' (' ' :: v.toList) []).isEmpty = false := by
      cases hr : splitOnCharAux ':' (' ' :: v.toList) [] with
      | nil => exact absurd hr (splitOnCharAux_ne_nil _ _ _)
      | cons a b => rfl
    have hjoin : joinColon (splitOnCharAux ':' (' ' :: v.toList) []) =
        ' ' :: v.toList := by
      rw [joinColon_splitOnCharAux]
      simp
    have hkstr : String.mk (jsTrimList k.toList) = k := by
      rw [hk.2.1]
      rfl
    have hvstr : String.mk (jsTrimList (joinColon
        (splitOnCharAux ':' (' ' :: v.toList) []))) = v := by
      rw [hjoin, jsTrimList_cons_ws ' ' v.toList (by decide), hv.2.1]
      rfl
    rw [List.map_cons]
    rw [show fmFromLines (fmEntryLine (k, v) :: ps.map fmEntryLine) acc =
      (match splitOnChar ':' (fmEntryLine (k, v)) with
      | [] => fmFromLines (ps.map fmEntryLine) acc
      | kk :: rest =>
        if kk.isEmpty || rest.isEmpty then
          fmFromLines (ps.map fmEntryLine) acc
        else
          fmFromLines (ps.map fmEntryLine)
            (fmAssign acc (String.mk (jsTrimList kk))
              (String.mk (jsTrimList (joinColon rest))))) from rfl]
    rw [hsplit]
    simp only [hkne, hrne, Bool.or_self, Bool.false_eq_true, if_false]
    rw [hkstr, hvstr]
    have hfr : acc.any (fun q => q.1 = k) = false := hfresh (k, v)
      (List.mem_cons_self _ _)
    rw [fmAssign_not_mem acc k v hfr]
    have hnd2 : (ps.map Prod.fst).Nodup := by
      rw [List.map_cons] at hnd
      exact hnd.of_cons
    have hknotin : k ∉ ps.map Prod.fst := by
      rw [List.map_cons] at hnd
      exact (List.nodup_cons.mp hnd).1
    have hfresh2 : ∀ q ∈ ps, (acc ++ [(k, v)]).any
        (fun r => r.1 = q.1) = false := by
      intro q hq
      rw [List.any_append]
      have h1 : acc.any (fun r => r.1 = q.1) = false :=
        hfresh q (List.mem_cons_of_mem _ hq)
      have h2 : k ≠ q.1 := by
        intro he
        exact hknotin (he ▸ List.mem_map.mpr ⟨q, hq, rfl⟩)
      simp [h1, h2]
    rw [ih (acc ++ [(k, v)])
      (fun q hq => hwf q (List.mem_cons_of_mem _ hq)) hfresh2 hnd2]
    simp

/-- Round trip: parsing a canonically rebuilt status file recovers
exactly the frontmatter entries, and the body with the two separator
newlines in front. -/
theorem parseFrontmatter_mk (fm : List (String × String)) (B : String)
    (hwf : wfFM fm) (hne : fm ≠ []) :
    parseFrontmatterL (mkStatusContent fm B).toList =
      (fm, '\n' :: '\n' :: B.toList) := by
  obtain ⟨hent, hnd⟩ := hwf
  have hlines : ∀ l ∈ fm.map fmEntryLine,
      l ≠ [] ∧ l.head? ≠ some '-' ∧ ∀ c ∈ l, c ≠ '\n' := by
    intro l hl
    rcases List.mem_map.mp hl with ⟨p, hp, rfl⟩
    obtain ⟨k, v⟩ := p
    obtain ⟨hk, hv⟩ := hent (k, v) hp
    refine ⟨fmEntryLine_ne_nil _, ?_, ?_⟩
    · rw [fmEntryLine_head? k v hk.1]
      exact hk.2.2.2
    · exact fmEntryLine_no_nl k v hk.2.2.1 hv.2.2
  have hcs : (mkStatusContent fm B).toList =
      '-' :: '-' :: '-' :: '\n' ::
        (joinLinesNL (fm.map fmEntryLine) ++
          '\n' :: '-' :: '-' :: '-' :: ('\n' :: '\n' :: B.toList)) := by
    show "---\n".toList ++ joinLinesNL (fm.map fmEntryLine) ++
      "\n---\n".toList ++ '\n' :: B.toList = _
    rw [show "---\n".toList = ['-', '-', '-', '\n'] from rfl,
      show "\n---\n".toList = ['\n', '-', '-', '-', '\n'] from rfl]
    simp [List.append_assoc]
  have hidx := indexOfSub_yaml (fm.map fmEntryLine)
    ('\n' :: '\n' :: B.toList) 3 hlines
  have hstart : startsWithLit "---".toList
      ('-' :: '-' :: '-' :: '\n' ::
        (joinLinesNL (fm.map fmEntryLine) ++
          '\n' :: '-' :: '-' :: '-' :: ('\n' :: '\n' :: B.toList))) =
      true := by
    simp [startsWithLit]
  have hcompute : ∀ (cs : List Char) (endIdx : Nat),
      startsWithLit "---".toList cs = true →
      indexOfSubAux "\n---".toList (cs.drop 3) 3 = some endIdx →
      parseFrontmatterL cs =
        (fmFromLines (splitFMLines (jsTrimList ((cs.take endIdx).drop 3)))
          [], cs.drop (endIdx + 4)) := by
    intro cs endIdx h1 h2
    unfold parseFrontmatterL
    rw [h1, h2]
    rfl
  have hdrop3 : ('-' :: '-' :: '-' :: '\n' ::
      (joinLinesNL (fm.map fmEntryLine) ++
        '\n' :: '-' :: '-' :: '-' :: ('\n' :: '\n' :: B.toList))).drop 3 =
      '\n' :: (joinLinesNL (fm.map fmEntryLine) ++
        '\n' :: '-' :: '-' :: '-' :: ('\n' :: '\n' :: B.toList)) := rfl
  have htake : ('-' :: '-' :: '-' :: '\n' ::
      (joinLinesNL (fm.map fmEntryLine) ++
        '\n' :: '-' :: '-' :: '-' :: ('\n' :: '\n' :: B.toList))).take
        (3 + 1 + (joinLinesNL (fm.map fmEntryLine)).length) =
      '-' :: '-' :: '-' :: '\n' :: joinLinesNL (fm.map fmEntryLine) := by
    have hsh : '-' :: '-' :: '-' :: '\n' ::
        (joinLinesNL (fm.map fmEntryLine) ++
          '\n' :: '-' :: '-' :: '-' :: ('\n' :: '\n' :: B.toList)) =
        ('-' :: '-' :: '-' :: '\n' :: joinLinesNL (fm.map fmEntryLine)) ++
          '\n' :: '-' :: '-' :: '-' :: ('\n' :: '\n' :: B.toList) := by
      simp
    rw [hsh]
    apply List.take_left'
    simp
    omega
  have hdropBody : ('-' :: '-' :: '-' :: '\n' ::
      (joinLinesNL (fm.map fmEntryLine) ++
        '\n' :: '-' :: '-' :: '-' :: ('\n' :: '\n' :: B.toList))).drop
        (3 + 1 + (joinLinesNL (fm.map fmEntryLine)).length + 4) =
      '\n' :: '\n' :: B.toList := by
    have hsh : '-' :: '-' :: '-' :: '\n' ::
        (joinLinesNL (fm.map fmEntryLine) ++
          '\n' :: '-' :: '-' :: '-' :: ('\n' :: '\n' :: B.toList)) =
        ('-' :: '-' :: '-' :: '\n' :: joinLinesNL (fm.map fmEntryLine) ++
          ['\n', '-', '-', '-']) ++ ('\n' :: '\n' :: B.toList) := by
      simp
    rw [hsh]
    apply List.drop_left'
    simp
    omega
  have hrawdrop : ('-' :: '-' :: '-' :: '\n' ::
      joinLinesNL (fm.map fmEntryLine)).drop 3 =
      '\n' :: joinLinesNL (fm.map fmEntryLine) := rfl
  have htrim : jsTrimList ('\n' :: joinLinesNL (fm.map fmEntryLine)) =
      joinLinesNL (fm.map fmEntryLine) := by
    rw [jsTrimList_cons_ws '\n' _ (by decide)]
    apply jsTrimList_of_ends
    · intro c hc
      cases fm with
      | nil => exact absurd rfl hne
      | cons p ps =>
        obtain ⟨k, v⟩ := p
        obtain ⟨hk, hv⟩ := hent (k, v) (List.mem_cons_self _ _)
        rw [List.map_cons,
          joinLinesNL_head? _ _ (fmEntryLine_ne_nil _),
          fmEntryLine_head? k v hk.1] at hc
        exact (trimFixed_ends k.toList hk.2.1).1 c hc
    · intro c hc
      obtain ⟨plast, hplast⟩ : ∃ p, fm.getLast? = some p :=
        Option.isSome_iff_exists.mp (List.getLast?_isSome.mpr hne)
      obtain ⟨hk, hv⟩ := hent plast (List.mem_of_mem_getLast? hplast)
      have hmapLast : (fm.map fmEntryLine).getLast? =
          some (fmEntryLine plast) := by
        rw [List.getLast?_map, hplast]
        rfl
      rw [joinLinesNL_getLast? _ _ hmapLast (fmEntryLine_ne_nil _)] at hc
      obtain ⟨k, v⟩ := plast
      rw [fmEntryLine_getLast? k v hv.1] at hc
      exact (trimFixed_ends v.toList hv.2.1).2 c hc
  have hsplitJ : splitFMLines (joinLinesNL (fm.map fmEntryLine)) =
      fm.map fmEntryLine := by
    apply splitFMLines_join
    · cases fm with
      | nil => exact absurd rfl hne
      | cons p ps => simp
    · intro l hl
      rcases List.mem_map.mp hl with ⟨p, hp, rfl⟩
      obtain ⟨k, v⟩ := p
      obtain ⟨hk, hv⟩ := hent (k, v) hp
      refine ⟨(hlines _ hl).2.2, ?_⟩
      rw [fmEntryLine_getLast? k v hv.1]
      intro hcon
      have := (trimFixed_ends v.toList hv.2.1).2 '\r' hcon
      simp [isJsWs] at this
  rw [hcs, hcompute _ (3 + 1 + (joinLinesNL (fm.map fmEntryLine)).length)
    hstart (by rw [hdrop3]; exact hidx)]
  rw [htake, hrawdrop, htrim, hsplitJ,
    fmFromLines_entries fm [] hent (by intro p _; rfl) hnd, hdropBody]
  rfl

/-- `trimStart` drops a leading whitespace character. -/
theorem jsTrimStartList_cons_ws (c : Char) (s : List Char)
    (h : isJsWs c = true) :
    jsTrimStartList (c :: s) = jsTrimStartList s := by
  unfold jsTrimStartList
  rw [List.dropWhile_cons, if_pos h]

/-- `trimStart` is the identity on a non-whitespace head. -/
theorem jsTrimStartList_of_head (c : Char) (s : List Char)
    (h : isJsWs c = false) : jsTrimStartList (c :: s) = c :: s := by
  unfold jsTrimStartList
  rw [List.dropWhile_cons, if_neg]
  simp [h]

/-- What `updateFeatureStatus` writes: the frontmatter with `status`
reassigned, and the body with the new history line prepended. -/
theorem updateFeatureStatusContent_mk (fm : List (String × String))
    (B : String) (ns source now message : String)
    (hwf : wfFM fm) (hne : fm ≠ []) :
    updateFeatureStatusContent (mkStatusContent fm B) ns source now
      message =
      mkStatusContent (fmAssign fm "status" ns)
        (String.mk (mkHistoryLine now source message ++
          (if (jsTrimStartList B.toList).isEmpty then []
           else jsTrimStartList B.toList ++
             (if (jsTrimStartList B.toList).getLast? = some '\n' then []
              else ['\n'])))) := by
  have hparse := parseFrontmatter_mk fm B hwf hne
  simp only [updateFeatureStatusContent, hparse]
  have h2 : jsTrimStartList ('\n' :: '\n' :: B.toList) =
      jsTrimStartList B.toList := by
    rw [jsTrimStartList_cons_ws _ _ (by decide),
      jsTrimStartList_cons_ws _ _ (by decide)]
  rw [h2]
  unfold mkStatusContent
  rw [List.append_assoc]
  rfl

/-- A concrete status file for a feature already in the terminal
`implemented` state. -/
def implementedStatusFile : String :=
  "---\nid: f1\nname: F1\nstatus: implemented\n---\n\n2024-01-01T00:00:00.000Z  [system]  Created feature\n"

/-- C1 counterexample: `implemented → spec-reviewed` is not in the
adjacency table, yet the manual `markSpecApproved` command succeeds on a
feature whose status is `implemented`: no `InvalidTransition` failure
occurs, the stored status becomes `spec-reviewed`, and a new history
line is prepended — the status and history are not left unchanged. -/
theorem markSpecApproved_bypasses_gate :
    canTransition FeatureStatus.implemented FeatureStatus.specReviewed =
      false ∧
    statusOf implementedStatusFile = some "implemented" ∧
    statusOf (markSpecApprovedContent implementedStatusFile
      "2024-01-02T00:00:00.000Z") = some "spec-reviewed" ∧
    obsBody (markSpecApprovedContent implementedStatusFile
      "2024-01-02T00:00:00.000Z") =
      mkHistoryLine "2024-01-02T00:00:00.000Z" "user"
        "Marked spec as approved" ++ obsBody implementedStatusFile := by
  decide

/-- C1 (amended): no status write consults `canTransition`.  For every
well-formed status file and every requested target status — even one
whose (from, to) pair is not in the adjacency table —
`updateFeatureStatus` succeeds: the stored status becomes the requested
status and exactly one history line is prepended to the body, instead of
failing with `InvalidTransition` and leaving the feature unchanged. -/
theorem updateFeatureStatus_ignores_transition_gate
    (fm : List (String × String)) (B : String)
    (fromSt toSt : FeatureStatus) (source now message : String)
    (hwf : wfFM fm) (hne : fm ≠ [])
    (hstatus : fm.lookup "status" = some (statusToString fromSt))
    (hgate : canTransition fromSt toSt = false)
    (hnow1 : now.toList ≠ [])
    (hnow2 : now.toList.head?.all (fun c => !isJsWs c) = true) :
    statusOf (mkStatusContent fm B) = some (statusToString fromSt) ∧
    statusOf (updateFeatureStatusContent (mkStatusContent fm B)
      (statusToString toSt) source now message) =
      some (statusToString toSt) ∧
    obsBody (updateFeatureStatusContent (mkStatusContent fm B)
      (statusToString toSt) source now message) =
      mkHistoryLine now source message ++
        (if (obsBody (mkStatusContent fm B)).isEmpty then []
         else obsBody (mkStatusContent fm B) ++
           (if (obsBody (mkStatusContent fm B)).getLast? = some '\n'
            then [] else ['\n'])) := by
  have hparse := parseFrontmatter_mk fm B hwf hne
  have hbody : obsBody (mkStatusContent fm B) =
      jsTrimStartList B.toList := by
    unfold obsBody
    rw [hparse]
    exact jsTrimStartList_cons_ws _ _ (by decide) |>.trans
      (jsTrimStartList_cons_ws _ _ (by decide))
  have hvalwf : wfVal (statusToString toSt) := by
    cases toSt <;> decide
  have hwf2 : wfFM (fmAssign fm "status" (statusToString toSt)) :=
    wfFM_fmAssign fm "status" (statusToString toSt) hwf (by decide) hvalwf
  have hne2 : fmAssign fm "status" (statusToString toSt) ≠ [] :=
    fmAssign_ne_nil fm "status" (statusToString toSt)
  have hupd := updateFeatureStatusContent_mk fm B (statusToString toSt)
    source now message hwf hne
  have hparse2 := parseFrontmatter_mk
    (fmAssign fm "status" (statusToString toSt))
    (String.mk (mkHistoryLine now source message ++
      (if (jsTrimStartList B.toList).isEmpty then []
       else jsTrimStartList B.toList ++
         (if (jsTrimStartList B.toList).getLast? = some '\n' then []
          else ['\n'])))) hwf2 hne2
  refine ⟨?_, ?_, ?_⟩
  · unfold statusOf
    rw [hparse]
    exact hstatus
  · unfold statusOf
    rw [hupd, hparse2]
    exact lookup_fmAssign _ _ _
  · rw [hbody]
    unfold obsBody
    rw [hupd, hparse2]
    cases hnc : now.toList with
    | nil => exact absurd hnc hnow1
    | cons c t =>
      have hcws : isJsWs c = false := by
        rw [hnc] at hnow2
        simpa using hnow2
      have hU : mkHistoryLine now source message ++
          (if (jsTrimStartList B.toList).isEmpty then []
           else jsTrimStartList B.toList ++
             (if (jsTrimStartList B.toList).getLast? = some '\n' then []
              else ['\n'])) =
          c :: (t ++ "  [".toList ++ source.toList ++ "]  ".toList ++
            message.toList ++ ['\n'] ++
            (if (jsTrimStartList B.toList).isEmpty then []
             else jsTrimStartList B.toList ++
               (if (jsTrimStartList B.toList).getLast? = some '\n'
                then [] else ['\n']))) := by
        unfold mkHistoryLine
        rw [hnc]
        simp [List.append_assoc]
      have hmkToList : (String.mk (mkHistoryLine now source message ++
          (if (jsTrimStartList B.toList).isEmpty then []
           else jsTrimStartList B.toList ++
             (if (jsTrimStartList B.toList).getLast? = some '\n' then []
              else ['\n'])))).toList =
          mkHistoryLine now source message ++
          (if (jsTrimStartList B.toList).isEmpty then []
           else jsTrimStartList B.toList ++
             (if (jsTrimStartList B.toList).getLast? = some '\n' then []
              else ['\n'])) := rfl
      rw [hmkToList,
        jsTrimStartList_cons_ws _ _ (by decide),
        jsTrimStartList_cons_ws _ _ (by decide), hU,
        jsTrimStartList_of_head c _ hcws, ← hU]

/-- Frontmatter of the witness feature. -/
def demoFM : List (String × String) :=
  [("id", "f1"), ("name", "F1"), ("status", "implemented")]

/-- Body of the witness feature. -/
def demoBody : String :=
  "2024-01-01T00:00:00.000Z  [system]  Created feature\n"

/-- Witness for the C1 amended theorem at a concrete feature in the
terminal state and the illegal target `spec-reviewed`. -/
theorem updateFeatureStatus_ignores_transition_gate_witness :
    statusOf (mkStatusContent demoFM demoBody) =
      some (statusToString FeatureStatus.implemented) ∧
    statusOf (updateFeatureStatusContent (mkStatusContent demoFM demoBody)
      (statusToString FeatureStatus.specReviewed) "user"
      "2024-01-02T00:00:00.000Z" "Marked spec as approved") =
      some (statusToString FeatureStatus.specReviewed) ∧
    obsBody (updateFeatureStatusContent (mkStatusContent demoFM demoBody)
      (statusToString FeatureStatus.specReviewed) "user"
      "2024-01-02T00:00:00.000Z" "Marked spec as approved") =
      mkHistoryLine "2024-01-02T00:00:00.000Z" "user"
        "Marked spec as approved" ++
        (if (obsBody (mkStatusContent demoFM demoBody)).isEmpty then []
         else obsBody (mkStatusContent demoFM demoBody) ++
           (if (obsBody (mkStatusContent demoFM demoBody)).getLast? =
              some '\n' then [] else ['\n'])) :=
  updateFeatureStatus_ignores_transition_gate demoFM demoBody
    FeatureStatus.implemented FeatureStatus.specReviewed "user"
    "2024-01-02T00:00:00.000Z" "Marked spec as approved"
    (by decide) (by decide) (by decide) (by decide) (by decide) (by decide)

/-!
## Loop controller: spec generation review loop

Shallow embedding of `generateSpecWithReviewLoop` (`reviewLoop.ts`).  The
effectful calls are oracles: `review i` is the outcome of the review at
iteration `i`, `incorp i` the success of the `i`-th incorporation call,
and the model emits a trace of events in execution order.
-/

/-- The review outcome record of `openaiReview.ts`/`claudeReview.ts`. -/
structure ReviewResult where
  success : Bool
  hasMajorIssues : Bool
  reviewContent : String
  deriving DecidableEq, Repr

/-- Observable events of the spec generation loop, in execution order. -/
inductive SpecEvent where
  | historyStart
  | generationCall (isResume : Bool)
  | historyGenerated (iteration : Nat)
  | historyGenFailed
  | reviewCall (iteration : Nat)
  | historyReviewFailed
  | historyReviewResult (iteration : Nat) (hasMajor : Bool)
  | historyReviewPassed
  | warnMaxIterations
  | historyMaxIterations
  | warnNoContent
  | errorIncorporate
  | historyIncorporateFailed
  | statusUpdate (st : String)
  deriving DecidableEq, Repr

/-- The `for (iteration = 1..maxIterations)` review loop of
`generateSpecWithReviewLoop`: review, stop on review failure, on a clean
review, or at the iteration cap; otherwise resume the generation session
with the feedback and continue. -/
def specReviewLoopAux (review : Nat → ReviewResult) (incorp : Nat → Bool)
    (maxIterations : Nat) : Nat → Nat → List SpecEvent
  | _, 0 => []
  | i, fuel + 1 =>
    let rr := review i
    SpecEvent.reviewCall i ::
    (if !rr.success then [SpecEvent.historyReviewFailed]
     else
       SpecEvent.historyReviewResult i rr.hasMajorIssues ::
       (if !rr.hasMajorIssues then [SpecEvent.historyReviewPassed]
        else if i ≥ maxIterations then
          [SpecEvent.warnMaxIterations, SpecEvent.historyMaxIterations]
        else if rr.reviewContent = "" then [SpecEvent.warnNoContent]
        else
          SpecEvent.generationCall true ::
          (if !(incorp i) then
            [SpecEvent.errorIncorporate, SpecEvent.historyIncorporateFailed]
           else
            SpecEvent.historyGenerated (i + 1) ::
            specReviewLoopAux review incorp maxIterations (i + 1) fuel)))

/-- `generateSpecWithReviewLoop`: pre-flight checks, initial generation
in a fresh session, the review loop, then the unconditional advance of
the status to `draft` with success. -/
def generateSpecWithReviewLoopModel (claudeInstalled : Bool)
    (reviewerConfigured : Bool) (hasRequestPath hasSpecPaths : Bool)
    (maxIterations : Nat) (initialGenSuccess : Bool)
    (review : Nat → ReviewResult) (incorp : Nat → Bool) :
    List SpecEvent × Bool :=
  if !claudeInstalled then ([], false)
  else if !reviewerConfigured then ([], false)
  else if !hasRequestPath then ([], false)
  else if !hasSpecPaths then ([], false)
  else
    let ev0 := [SpecEvent.historyStart, SpecEvent.generationCall false]
    if !initialGenSuccess then
      (ev0 ++ [SpecEvent.historyGenFailed], false)
    else
      (ev0 ++ [SpecEvent.historyGenerated 1] ++
        specReviewLoopAux review incorp maxIterations 1 maxIterations ++
        [SpecEvent.statusUpdate "draft"], true)

/-- Review-call events. -/
def SpecEvent.isReviewCall : SpecEvent → Bool
  | SpecEvent.reviewCall _ => true
  | _ => false

/-- Incorporation calls: generation-session calls with resume. -/
def SpecEvent.isIncorporationCall : SpecEvent → Bool
  | SpecEvent.generationCall true => true
  | _ => false

/-- C5: with the initial generation succeeding, every review succeeding
with major issues (and producing review text), every incorporation
succeeding, and `maxIterations = 3`: exactly 3 review calls and exactly
2 incorporation calls occur after the initial generation, the loop stops
with a max-iterations warning, and the status still advances to `draft`
with the function returning success. -/
theorem spec_loop_major_issues_three_iterations
    (review : Nat → ReviewResult) (incorp : Nat → Bool)
    (hs : ∀ i, (review i).success = true)
    (hm : ∀ i, (review i).hasMajorIssues = true)
    (hc : ∀ i, (review i).reviewContent ≠ "")
    (hi : ∀ i, incorp i = true) :
    (((generateSpecWithReviewLoopModel true true true true 3 true review
      incorp).1.countP (fun e => e.isReviewCall)) = 3) ∧
    (((generateSpecWithReviewLoopModel true true true true 3 true review
      incorp).1.countP (fun e => e.isIncorporationCall)) = 2) ∧
    SpecEvent.warnMaxIterations ∈
      (generateSpecWithReviewLoopModel true true true true 3 true review
        incorp).1 ∧
    SpecEvent.statusUpdate "draft" ∈
      (generateSpecWithReviewLoopModel true true true true 3 true review
        incorp).1 ∧
    (generateSpecWithReviewLoopModel true true true true 3 true review
      incorp).2 = true := by
  have htrace : generateSpecWithReviewLoopModel true true true true 3 true
      review incorp =
      ([SpecEvent.historyStart, SpecEvent.generationCall false,
        SpecEvent.historyGenerated 1,
        SpecEvent.reviewCall 1, SpecEvent.historyReviewResult 1 true,
        SpecEvent.generationCall true, SpecEvent.historyGenerated 2,
        SpecEvent.reviewCall 2, SpecEvent.historyReviewResult 2 true,
        SpecEvent.generationCall true, SpecEvent.historyGenerated 3,
        SpecEvent.reviewCall 3, SpecEvent.historyReviewResult 3 true,
        SpecEvent.warnMaxIterations, SpecEvent.historyMaxIterations,
        SpecEvent.statusUpdate "draft"], true) := by
    have hstep : ∀ i fuel, i < 3 →
        specReviewLoopAux review incorp 3 i (fuel + 1) =
        SpecEvent.reviewCall i :: SpecEvent.historyReviewResult i true ::
        SpecEvent.generationCall true ::
        SpecEvent.historyGenerated (i + 1) ::
        specReviewLoopAux review incorp 3 (i + 1) fuel := by
      intro i fuel hlt
      conv_lhs => unfold specReviewLoopAux
      simp [hs i, hm i, hc i, hi i, Nat.not_le.mpr hlt]
    have hlast : specReviewLoopAux review incorp 3 3 1 =
        [SpecEvent.reviewCall 3, SpecEvent.historyReviewResult 3 true,
         SpecEvent.warnMaxIterations, SpecEvent.historyMaxIterations] := by
      conv_lhs => unfold specReviewLoopAux
      simp [hs 3, hm 3]
    have h1 : specReviewLoopAux review incorp 3 1 3 =
        SpecEvent.reviewCall 1 :: SpecEvent.historyReviewResult 1 true ::
        SpecEvent.generationCall true :: SpecEvent.historyGenerated 2 ::
        specReviewLoopAux review incorp 3 2 2 := hstep 1 2 (by decide)
    have h2 : specReviewLoopAux review incorp 3 2 2 =
        SpecEvent.reviewCall 2 :: SpecEvent.historyReviewResult 2 true ::
        SpecEvent.generationCall true :: SpecEvent.historyGenerated 3 ::
        specReviewLoopAux review incorp 3 3 1 := hstep 2 1 (by decide)
    unfold generateSpecWithReviewLoopModel
    simp only [Bool.not_true, Bool.false_eq_true, if_false]
    rw [h1, h2, hlast]
    simp
  rw [htrace]
  refine ⟨by decide, by decide, by decide, by decide, rfl⟩

/-!
## Reviewer session identity

`reviewSpecWithClaude`, `reviewPlanWithClaude` and `reviewCodeWithClaude`
(`claudeReview.ts`) each call `generateSessionId()` and invoke the agent
with `resume = false`; session identities are modelled as a counter of
fresh ids.  The build-loop Claude REVIEWER (`buildLoop.ts`) instead
creates one session per build and resumes it after the first review.
-/

/-- One agent session invocation. -/
structure SessionCall where
  sessionId : Nat
  isResume : Bool
  deriving DecidableEq, Repr

/-- Session usage of `reviewSpecWithClaude`: a freshly generated id,
never a resume. -/
def reviewSpecWithClaudeSession (nextId : Nat) : SessionCall × Nat :=
  (⟨nextId, false⟩, nextId + 1)

/-- Session usage of `reviewPlanWithClaude`. -/
def reviewPlanWithClaudeSession (nextId : Nat) : SessionCall × Nat :=
  (⟨nextId, false⟩, nextId + 1)

/-- Session usage of `reviewCodeWithClaude`. -/
def reviewCodeWithClaudeSession (nextId : Nat) : SessionCall × Nat :=
  (⟨nextId, false⟩, nextId + 1)

/-- Iterate a session-using call `n` times, threading the id counter. -/
def iterateSessions (f : Nat → SessionCall × Nat) : Nat → Nat →
    List SessionCall
  | 0, _ => []
  | n + 1, start => (f start).1 :: iterateSessions f n (f start).2

/-- Witness for C5 with a review oracle that always reports major
issues. -/
theorem spec_loop_major_issues_three_iterations_witness :
    (((generateSpecWithReviewLoopModel true true true true 3 true
      (fun _ => ⟨true, true, "major problems"⟩) (fun _ => true)).1.countP
        (fun e => e.isReviewCall)) = 3) ∧
    (((generateSpecWithReviewLoopModel true true true true 3 true
      (fun _ => ⟨true, true, "major problems"⟩) (fun _ => true)).1.countP
        (fun e => e.isIncorporationCall)) = 2) ∧
    SpecEvent.warnMaxIterations ∈
      (generateSpecWithReviewLoopModel true true true true 3 true
        (fun _ => ⟨true, true, "major problems"⟩) (fun _ => true)).1 ∧
    SpecEvent.statusUpdate "draft" ∈
      (generateSpecWithReviewLoopModel true true true true 3 true
        (fun _ => ⟨true, true, "major problems"⟩) (fun _ => true)).1 ∧
    (generateSpecWithReviewLoopModel true true true true 3 true
      (fun _ => ⟨true, true, "major problems"⟩) (fun _ => true)).2 =
      true :=
  spec_loop_major_issues_three_iterations
    (fun _ => ⟨true, true, "major problems"⟩) (fun _ => true)
    (fun _ => rfl) (fun _ => rfl) (by
      intro i
      show "major problems" ≠ ""
      decide) (fun _ => rfl)

/-!
## Loop controller: build phase

Shallow embedding of `executeBuildPhase` (`buildLoop.ts`) with its
per-phase review loop, the dual-reviewer merge (`codeReview.ts`), the
single-remediation budget for minor-only feedback, and the session
identities: the BUILDER session and the Claude REVIEWER session are each
created once per build (ids 0 and 1), and the REVIEWER session is
resumed after its first review.
-/

/-- The code review outcome record of `codeReview.ts`. -/
structure CodeReviewResult where
  success : Bool
  hasMajorIssues : Bool
  hasMinorIssues : Bool
  deriving DecidableEq, Repr

/-- `hasAnyMajorIssues` from `codeReview.ts`. -/
def hasAnyMajorIssues (primaryReview : CodeReviewResult)
    (architectReview : Option CodeReviewResult) : Bool :=
  primaryReview.hasMajorIssues ||
    ((architectReview.map (fun r => r.hasMajorIssues)).getD false)

/-- `hasOnlyMinorIssues` from `codeReview.ts`. -/
def hasOnlyMinorIssues (primaryReview : CodeReviewResult)
    (architectReview : Option CodeReviewResult) : Bool :=
  if hasAnyMajorIssues primaryReview architectReview then false
  else
    primaryReview.hasMinorIssues ||
      ((architectReview.map (fun r => r.hasMinorIssues)).getD false)

/-- `GitDiffResult` from `gitUtils.ts`. -/
structure GitDiffResult where
  diff : String
  filesChanged : List String
  hasChanges : Bool
  deriving DecidableEq, Repr

/-- `getStagedDiff` from `gitUtils.ts`, over an oracle giving each git
command's outcome: stage everything, read the staged diff and the staged
file list; any command failure is caught and yields the empty result. -/
def getStagedDiff (runGit : String → Except String String) :
    GitDiffResult :=
  match runGit "git add -A" with
  | Except.error _ => ⟨"", [], false⟩
  | Except.ok _ =>
    match runGit "git diff --staged" with
    | Except.error _ => ⟨"", [], false⟩
    | Except.ok diff =>
      match runGit "git diff --staged --name-only" with
      | Except.error _ => ⟨"", [], false⟩
      | Except.ok filesOutput =>
        ⟨String.mk (jsTrimList diff.toList),
         ((String.mk (jsTrimList filesOutput.toList)).splitOn
           "\n").filter (fun s => s ≠ ""),
         decide (0 < (jsTrimList diff.toList).length)⟩

/-- `buildReviewMode` values. -/
inductive BuildReviewMode where
  | openaiOnly
  | architectOnly
  | both
  deriving DecidableEq, Repr

/-- Build configuration (`getBuildConfig` in `buildLoop.ts`). -/
structure BuildConfig where
  maxBuildIterations : Nat
  buildReviewMode : BuildReviewMode
  deriving DecidableEq, Repr

/-- Observable events of the build phase, in execution order. -/
inductive BuildEvent where
  | statusUpdate (st : String)
  | historyPhaseStart (phase : Nat)
  | builderCall (sessionId : Nat) (isResume : Bool)
  | historyBuildFailed (phase : Nat)
  | historyBuilderDone (phase : Nat)
  | diffCall (phase iteration : Nat)
  | historySkipReview (phase : Nat)
  | primaryReviewCall (phase iteration : Nat)
  | historyPrimaryResult (phase iteration : Nat) (major minor : Bool)
  | historyPrimaryFailed (phase iteration : Nat)
  | claudeReviewerCall (phase iteration : Nat) (sessionId : Nat)
      (isResume : Bool)
  | historyClaudeResult (phase iteration : Nat) (major minor : Bool)
  | historyClaudeFailed (phase iteration : Nat)
  | historyApproved (phase iteration : Nat)
  | historyApprovedMinorLogged (phase iteration : Nat)
  | historyMinorOnce (phase iteration : Nat)
  | historyMaxIterations (phase : Nat)
  | warnMaxIterations (phase : Nat)
  | incorporationCall (phase iteration : Nat) (sessionId : Nat)
      (isResume : Bool)
  | historyIncorporated (phase iteration : Nat)
  | historyIncorporateFailed (phase : Nat)
  | warnNoPhases
  | errorShown (site : Nat)
  | infoComplete
  deriving DecidableEq, Repr

/-- Oracles for the effectful calls of `executeBuildPhase`. -/
structure BuildOracles where
  claudeInstalled : Bool
  reviewerConfigured : Bool
  gitAvailable : Bool
  hasPlanPath : Bool
  planReadOk : Bool
  planContent : String
  buildStep : Nat → Bool
  diff : Nat → Nat → GitDiffResult
  primary : Nat → Nat → CodeReviewResult
  claudeRev : Nat → Nat → CodeReviewResult

/-- Events of the primary (OpenAI or configured-provider) code review,
skipped in architect-only mode. -/
def primaryReviewEvents (cfg : BuildConfig) (O : BuildOracles)
    (p it : Nat) : List BuildEvent :=
  if cfg.buildReviewMode ≠ BuildReviewMode.architectOnly then
    BuildEvent.primaryReviewCall p it ::
    (if (O.primary p it).success then
      [BuildEvent.historyPrimaryResult p it (O.primary p it).hasMajorIssues
        (O.primary p it).hasMinorIssues]
     else [BuildEvent.historyPrimaryFailed p it])
  else []

/-- The primary review result used for the merge: the dummy
all-false record in architect-only mode. -/
def primaryReviewResult (cfg : BuildConfig) (O : BuildOracles)
    (p it : Nat) : CodeReviewResult :=
  if cfg.buildReviewMode ≠ BuildReviewMode.architectOnly then
    O.primary p it
  else ⟨false, false, false⟩

/-- Events of the Claude REVIEWER check, skipped in openai-only mode;
the session resumes unless this is the first REVIEWER check of the
build. -/
def claudeReviewEvents (cfg : BuildConfig) (O : BuildOracles)
    (p it reviewerSession : Nat) (firstRev : Bool) : List BuildEvent :=
  if cfg.buildReviewMode ≠ BuildReviewMode.openaiOnly then
    BuildEvent.claudeReviewerCall p it reviewerSession (!firstRev) ::
    (if (O.claudeRev p it).success then
      [BuildEvent.historyClaudeResult p it
        (O.claudeRev p it).hasMajorIssues (O.claudeRev p it).hasMinorIssues]
     else [BuildEvent.historyClaudeFailed p it])
  else []

/-- The optional Claude REVIEWER result used for the merge. -/
def claudeReviewOpt (cfg : BuildConfig) (O : BuildOracles) (p it : Nat) :
    Option CodeReviewResult :=
  if cfg.buildReviewMode ≠ BuildReviewMode.openaiOnly then
    some (O.claudeRev p it)
  else none

/-- The first-review flag after a review round. -/
def firstRevAfter (cfg : BuildConfig) (firstRev : Bool) : Bool :=
  if cfg.buildReviewMode ≠ BuildReviewMode.openaiOnly then false
  else firstRev

/-- The per-phase review loop of `executeBuildPhase` (`incorp p it` is
the success of the incorporation call of iteration `it` of phase `p`):
capture the staged diff (skipping the review when it is empty), run the
configured reviews, merge, then stop on approval, on the exhausted
minor-remediation budget, or at the iteration cap; otherwise resume the
BUILDER session with the merged feedback.  Returns the events, whether a
fatal failure aborts the whole build, and the outgoing first-review
flag. -/
def buildPhaseIterLoop (cfg : BuildConfig) (O : BuildOracles)
    (incorp : Nat → Nat → Bool) (p reviewerSession builderSession : Nat) :
    Bool → Bool → Nat → Nat → List BuildEvent × Bool × Bool
  | firstRev, _, _, 0 => ([], false, firstRev)
  | firstRev, minorUsed, it, fuel + 1 =>
    if !(O.diff p it).hasChanges then
      ([BuildEvent.diffCall p it, BuildEvent.historySkipReview p], false,
        firstRev)
    else if !hasAnyMajorIssues (primaryReviewResult cfg O p it)
        (claudeReviewOpt cfg O p it) &&
        !hasOnlyMinorIssues (primaryReviewResult cfg O p it)
          (claudeReviewOpt cfg O p it) then
      (BuildEvent.diffCall p it :: primaryReviewEvents cfg O p it ++
        claudeReviewEvents cfg O p it reviewerSession firstRev ++
        [BuildEvent.historyApproved p it], false,
        firstRevAfter cfg firstRev)
    else if !hasAnyMajorIssues (primaryReviewResult cfg O p it)
        (claudeReviewOpt cfg O p it) &&
        hasOnlyMinorIssues (primaryReviewResult cfg O p it)
          (claudeReviewOpt cfg O p it) && minorUsed then
      (BuildEvent.diffCall p it :: primaryReviewEvents cfg O p it ++
        claudeReviewEvents cfg O p it reviewerSession firstRev ++
        [BuildEvent.historyApprovedMinorLogged p it], false,
        firstRevAfter cfg firstRev)
    else if it ≥ cfg.maxBuildIterations then
      (BuildEvent.diffCall p it :: primaryReviewEvents cfg O p it ++
        claudeReviewEvents cfg O p it reviewerSession firstRev ++
        (if !hasAnyMajorIssues (primaryReviewResult cfg O p it)
            (claudeReviewOpt cfg O p it) &&
            hasOnlyMinorIssues (primaryReviewResult cfg O p it)
              (claudeReviewOpt cfg O p it) then
          [BuildEvent.historyMinorOnce p it] else []) ++
        [BuildEvent.historyMaxIterations p,
         BuildEvent.warnMaxIterations p], false,
        firstRevAfter cfg firstRev)
    else if !(incorp p it) then
      (BuildEvent.diffCall p it :: primaryReviewEvents cfg O p it ++
        claudeReviewEvents cfg O p it reviewerSession firstRev ++
        (if !hasAnyMajorIssues (primaryReviewResult cfg O p it)
            (claudeReviewOpt cfg O p it) &&
            hasOnlyMinorIssues (primaryReviewResult cfg O p it)
              (claudeReviewOpt cfg O p it) then
          [BuildEvent.historyMinorOnce p it] else []) ++
        [BuildEvent.incorporationCall p it builderSession true,
         BuildEvent.historyIncorporateFailed p], true,
        firstRevAfter cfg firstRev)
    else
      (BuildEvent.diffCall p it :: primaryReviewEvents cfg O p it ++
        claudeReviewEvents cfg O p it reviewerSession firstRev ++
        (if !hasAnyMajorIssues (primaryReviewResult cfg O p it)
            (claudeReviewOpt cfg O p it) &&
            hasOnlyMinorIssues (primaryReviewResult cfg O p it)
              (claudeReviewOpt cfg O p it) then
          [BuildEvent.historyMinorOnce p it] else []) ++
        [BuildEvent.incorporationCall p it builderSession true,
         BuildEvent.historyIncorporated p (it + 1)] ++
        (buildPhaseIterLoop cfg O incorp p reviewerSession builderSession
          (firstRevAfter cfg firstRev)
          (minorUsed || (!hasAnyMajorIssues (primaryReviewResult cfg O p it)
            (claudeReviewOpt cfg O p it) &&
            hasOnlyMinorIssues (primaryReviewResult cfg O p it)
              (claudeReviewOpt cfg O p it))) (it + 1) fuel).1,
        (buildPhaseIterLoop cfg O incorp p reviewerSession builderSession
          (firstRevAfter cfg firstRev)
          (minorUsed || (!hasAnyMajorIssues (primaryReviewResult cfg O p it)
            (claudeReviewOpt cfg O p it) &&
            hasOnlyMinorIssues (primaryReviewResult cfg O p it)
              (claudeReviewOpt cfg O p it))) (it + 1) fuel).2.1,
        (buildPhaseIterLoop cfg O incorp p reviewerSession builderSession
          (firstRevAfter cfg firstRev)
          (minorUsed || (!hasAnyMajorIssues (primaryReviewResult cfg O p it)
            (claudeReviewOpt cfg O p it) &&
            hasOnlyMinorIssues (primaryReviewResult cfg O p it)
              (claudeReviewOpt cfg O p it))) (it + 1) fuel).2.2)

/-- The outer loop over the (sorted) phases: BUILDER builds the phase
(resuming its session for phase numbers above 1), then the review loop
runs; a build or incorporation failure aborts the whole function. -/
def buildPhasesLoop (cfg : BuildConfig) (O : BuildOracles)
    (incorp : Nat → Nat → Bool) (reviewerSession builderSession : Nat) :
    List Phase → Bool → List BuildEvent × Bool × Bool
  | [], firstRev => ([], true, firstRev)
  | ph :: rest, firstRev =>
    if !(O.buildStep ph.number) then
      ([BuildEvent.historyPhaseStart ph.number,
        BuildEvent.builderCall builderSession (decide (ph.number > 1)),
        BuildEvent.historyBuildFailed ph.number], false, firstRev)
    else if (buildPhaseIterLoop cfg O incorp ph.number reviewerSession
        builderSession firstRev false 1 cfg.maxBuildIterations).2.1 then
      (BuildEvent.historyPhaseStart ph.number ::
        BuildEvent.builderCall builderSession (decide (ph.number > 1)) ::
        BuildEvent.historyBuilderDone ph.number ::
        (buildPhaseIterLoop cfg O incorp ph.number reviewerSession
          builderSession firstRev false 1 cfg.maxBuildIterations).1,
        false,
        (buildPhaseIterLoop cfg O incorp ph.number reviewerSession
          builderSession firstRev false 1 cfg.maxBuildIterations).2.2)
    else
      (BuildEvent.historyPhaseStart ph.number ::
        BuildEvent.builderCall builderSession (decide (ph.number > 1)) ::
        BuildEvent.historyBuilderDone ph.number ::
        (buildPhaseIterLoop cfg O incorp ph.number reviewerSession
          builderSession firstRev false 1 cfg.maxBuildIterations).1 ++
        (buildPhasesLoop cfg O incorp reviewerSession builderSession rest
          (buildPhaseIterLoop cfg O incorp ph.number reviewerSession
            builderSession firstRev false 1 cfg.maxBuildIterations).2.2).1,
        (buildPhasesLoop cfg O incorp reviewerSession builderSession rest
          (buildPhaseIterLoop cfg O incorp ph.number reviewerSession
            builderSession firstRev false 1 cfg.maxBuildIterations).2.2).2.1,
        (buildPhasesLoop cfg O incorp reviewerSession builderSession rest
          (buildPhaseIterLoop cfg O incorp ph.number reviewerSession
            builderSession firstRev false 1 cfg.maxBuildIterations).2.2).2.2)

/-- `executeBuildPhase`: pre-flight checks, phase extraction (aborting
with no status change when no phases are found), the status write to
`building`, creation of the BUILDER session (id 0) and the REVIEWER
session (id 1), the phase loop, and on success the status write to
`code-review`. -/
def executeBuildPhaseModel (cfg : BuildConfig) (O : BuildOracles)
    (incorp : Nat → Nat → Bool) : List BuildEvent × Bool :=
  if !O.claudeInstalled then ([], false)
  else if cfg.buildReviewMode ≠ BuildReviewMode.architectOnly &&
      !O.reviewerConfigured then ([], false)
  else if !O.gitAvailable then ([BuildEvent.errorShown 0], false)
  else if !O.hasPlanPath then ([BuildEvent.errorShown 1], false)
  else if !O.planReadOk then ([BuildEvent.errorShown 2], false)
  else
    let phases := parsePlanPhasesFromContent O.planContent
    if phases.isEmpty then ([BuildEvent.warnNoPhases], false)
    else
      let run := buildPhasesLoop cfg O incorp 1 0 phases true
      if run.2.1 then
        (BuildEvent.statusUpdate "building" :: run.1 ++
          [BuildEvent.statusUpdate "code-review",
           BuildEvent.infoComplete], true)
      else (BuildEvent.statusUpdate "building" :: run.1, false)

/-- Status-write events. -/
def BuildEvent.isStatusUpdate : BuildEvent → Bool
  | BuildEvent.statusUpdate _ => true
  | _ => false

/-- Code-review invocations (either reviewer). -/
def BuildEvent.isReviewInvocation : BuildEvent → Bool
  | BuildEvent.primaryReviewCall _ _ => true
  | BuildEvent.claudeReviewerCall _ _ _ _ => true
  | _ => false

/-- Incorporation (BUILDER remediation) calls. -/
def BuildEvent.isIncorporation : BuildEvent → Bool
  | BuildEvent.incorporationCall _ _ _ _ => true
  | _ => false

/-- C8: a plan text none of whose lines matches the phase header
pattern parses to the empty phase list (not an error), and starting a
build on a plan whose phase list is empty aborts the build with a
warning: the result is failure and the trace contains no status write at
all — in particular the write to `building` is never reached. -/
theorem no_phases_aborts_build_without_status_change :
    (∀ content : String,
      (∀ l ∈ splitLines content.toList, matchPhaseHeader l = none) →
      parsePlanPhasesFromContent content = []) ∧
    (∀ (cfg : BuildConfig) (O : BuildOracles) (incorp : Nat → Nat → Bool),
      parsePlanPhasesFromContent O.planContent = [] →
      (executeBuildPhaseModel cfg O incorp).1.countP
        (fun e => e.isStatusUpdate) = 0 ∧
      (executeBuildPhaseModel cfg O incorp).2 = false) := by
  constructor
  · exact extractPhases_no_headers_empty
  · intro cfg O incorp hempty
    unfold executeBuildPhaseModel
    rw [hempty]
    split
    · exact ⟨rfl, rfl⟩
    split
    · exact ⟨rfl, rfl⟩
    split
    · exact ⟨by decide, rfl⟩
    split
    · exact ⟨by decide, rfl⟩
    split
    · exact ⟨by decide, rfl⟩
    refine ⟨?_, ?_⟩ <;> simp [BuildEvent.isStatusUpdate]

/-- Witness for C8 at a concrete headerless plan and a concrete build
configuration. -/
theorem no_phases_aborts_build_without_status_change_witness :
    parsePlanPhasesFromContent "A plan with no phase markers." = [] ∧
    (executeBuildPhaseModel ⟨5, BuildReviewMode.both⟩
      ⟨true, true, true, true, true, "A plan with no phase markers.",
        fun _ => true, fun _ _ => ⟨"", [], false⟩,
        fun _ _ => ⟨true, false, false⟩, fun _ _ => ⟨true, false, false⟩⟩
      (fun _ _ => true)).1.countP (fun e => e.isStatusUpdate) = 0 :=
  ⟨no_phases_aborts_build_without_status_change.1
    "A plan with no phase markers." (by decide),
   (no_phases_aborts_build_without_status_change.2 ⟨5, BuildReviewMode.both⟩
    ⟨true, true, true, true, true, "A plan with no phase markers.",
      fun _ => true, fun _ _ => ⟨"", [], false⟩,
      fun _ _ => ⟨true, false, false⟩, fun _ _ => ⟨true, false, false⟩⟩
    (fun _ _ => true)
    (no_phases_aborts_build_without_status_change.1
      "A plan with no phase markers." (by decide))).1⟩

/-- C10: if any of the three git commands used by `getStagedDiff` fails,
the function returns the empty result `{diff: "", filesChanged: [],
hasChanges: false}` instead of propagating the error; and whenever the
diff handed to a phase's first review iteration has `hasChanges = false`
the per-phase review loop logs "skipping review" and exits immediately —
no review of either kind runs, and the phase is treated as complete
(no fatal failure). -/
theorem git_failure_yields_empty_diff_and_skips_review :
    (∀ runGit : String → Except String String,
      ((runGit "git add -A").isOk = false ∨
       (runGit "git diff --staged").isOk = false ∨
       (runGit "git diff --staged --name-only").isOk = false) →
      getStagedDiff runGit = ⟨"", [], false⟩) ∧
    (∀ (cfg : BuildConfig) (O : BuildOracles) (incorp : Nat → Nat → Bool)
      (p rs bs : Nat) (firstRev : Bool) (fuel : Nat),
      (O.diff p 1).hasChanges = false →
      buildPhaseIterLoop cfg O incorp p rs bs firstRev false 1
        (fuel + 1) =
        ([BuildEvent.diffCall p 1, BuildEvent.historySkipReview p],
          false, firstRev)) := by
  constructor
  · intro runGit hfail
    unfold getStagedDiff
    rcases h1 : runGit "git add -A" with e | v1
    · rfl
    rcases h2 : runGit "git diff --staged" with e | v2
    · rfl
    rcases h3 : runGit "git diff --staged --name-only" with e | v3
    · rfl
    exfalso
    rcases hfail with h | h | h <;>
      simp_all [Except.isOk, Except.toBool]
  · intro cfg O incorp p rs bs firstRev fuel hd
    conv_lhs => unfold buildPhaseIterLoop
    simp [hd]

/-- Witness for C10: a failing `git add -A` yields the empty result, and
a no-changes diff at iteration 1 exits the review loop with the skip
entry. -/
theorem git_failure_yields_empty_diff_and_skips_review_witness :
    getStagedDiff (fun _ => Except.error "spawn error") = ⟨"", [], false⟩ ∧
    buildPhaseIterLoop ⟨5, BuildReviewMode.both⟩
      ⟨true, true, true, true, true, "", fun _ => true,
        fun _ _ => ⟨"", [], false⟩, fun _ _ => ⟨true, false, false⟩,
        fun _ _ => ⟨true, false, false⟩⟩
      (fun _ _ => true) 1 1 0 true false 1 5 =
      ([BuildEvent.diffCall 1 1, BuildEvent.historySkipReview 1],
        false, true) :=
  ⟨git_failure_yields_empty_diff_and_skips_review.1
    (fun _ => Except.error "spawn error") (Or.inl (by decide)),
   git_failure_yields_empty_diff_and_skips_review.2
    ⟨5, BuildReviewMode.both⟩
    ⟨true, true, true, true, true, "", fun _ => true,
      fun _ _ => ⟨"", [], false⟩, fun _ _ => ⟨true, false, false⟩,
      fun _ _ => ⟨true, false, false⟩⟩
    (fun _ _ => true) 1 1 0 true 4 rfl⟩

/-- Configuration for the C4 counterexample: architect-only build
review with the default iteration cap. -/
def c4cfg : BuildConfig := ⟨5, BuildReviewMode.architectOnly⟩

/-- Oracles for the C4 counterexample: a one-phase plan whose first
Claude REVIEWER check finds major issues and whose second approves. -/
def c4O : BuildOracles :=
  ⟨true, true, true, true, true, "## Phase 1: Only phase\nbody",
    fun _ => true, fun _ _ => ⟨"diff", ["f.ts"], true⟩,
    fun _ _ => ⟨false, false, false⟩,
    fun _ it => if it = 1 then ⟨true, true, false⟩
      else ⟨true, false, false⟩⟩

/-- C4 counterexample: in a build-loop run, the second Claude REVIEWER
invocation reuses the session identity of the first with the resume flag
set — a reviewer session is resumed across iterations, not fresh every
iteration. -/
theorem buildloop_resumes_reviewer_session :
    BuildEvent.claudeReviewerCall 1 1 1 false ∈
      (executeBuildPhaseModel c4cfg c4O (fun _ _ => true)).1 ∧
    BuildEvent.claudeReviewerCall 1 2 1 true ∈
      (executeBuildPhaseModel c4cfg c4O (fun _ _ => true)).1 := by
  decide

/-- The session calls of an iterated fresh-session review provider are
an id-counter range, never resumed. -/
theorem iterateSessions_fresh (f : Nat → SessionCall × Nat)
    (hf : ∀ s, f s = (⟨s, false⟩, s + 1)) (n start : Nat) :
    iterateSessions f n start =
      (List.range' start n).map (fun i => ⟨i, false⟩) := by
  induction n generalizing start with
  | zero => rfl
  | succ k ih =>
    rw [show iterateSessions f (k + 1) start =
      (f start).1 :: iterateSessions f k (f start).2 from rfl]
    rw [hf start]
    rw [ih (start + 1)]
    rfl

/-- The Claude REVIEWER session calls recorded in a build trace. -/
def claudeCallsOf (tr : List BuildEvent) : List (Nat × Bool) :=
  tr.filterMap (fun e =>
    match e with
    | BuildEvent.claudeReviewerCall _ _ sid r => some (sid, r)
    | _ => none)

/-- The per-build REVIEWER session discipline: every call uses the one
session id, the first call (while the first-review flag is up) is fresh,
and every later call resumes. -/
def reviewerCallsOK (sid : Nat) : Bool → List (Nat × Bool) → Bool
  | _, [] => true
  | fr, (s, r) :: rest =>
    s == sid && r == !fr && reviewerCallsOK sid false rest

/-- Discipline check distributes over concatenation: the flag stays up
across the first part only when it records no call. -/
theorem reviewerCallsOK_append (sid : Nat) (fr : Bool)
    (xs ys : List (Nat × Bool)) :
    reviewerCallsOK sid fr (xs ++ ys) =
      (reviewerCallsOK sid fr xs &&
        reviewerCallsOK sid (fr && xs.isEmpty) ys) := by
  induction xs generalizing fr with
  | nil => simp [reviewerCallsOK]
  | cons x xs ih =>
    obtain ⟨s, r⟩ := x
    rw [List.cons_append]
    simp only [reviewerCallsOK]
    rw [ih false]
    simp [Bool.and_assoc]

/-- `claudeCallsOf` on the empty trace. -/
@[simp] theorem claudeCallsOf_nil : claudeCallsOf [] = [] := rfl

/-- `claudeCallsOf` distributes over concatenation. -/
@[simp] theorem claudeCallsOf_append (a b : List BuildEvent) :
    claudeCallsOf (a ++ b) = claudeCallsOf a ++ claudeCallsOf b := by
  simp [claudeCallsOf]

/-- A diff capture records no REVIEWER call. -/
@[simp] theorem claudeCallsOf_diffCall (p it : Nat)
    (tr : List BuildEvent) :
    claudeCallsOf (BuildEvent.diffCall p it :: tr) = claudeCallsOf tr :=
  rfl

/-- A skip-review entry records no REVIEWER call. -/
@[simp] theorem claudeCallsOf_skip (p : Nat) (tr : List BuildEvent) :
    claudeCallsOf (BuildEvent.historySkipReview p :: tr) =
      claudeCallsOf tr := rfl

/-- An approval entry records no REVIEWER call. -/
@[simp] theorem claudeCallsOf_approved (p it : Nat)
    (tr : List BuildEvent) :
    claudeCallsOf (BuildEvent.historyApproved p it :: tr) =
      claudeCallsOf tr := rfl

/-- A minor-logged approval entry records no REVIEWER call. -/
@[simp] theorem claudeCallsOf_approvedMinor (p it : Nat)
    (tr : List BuildEvent) :
    claudeCallsOf (BuildEvent.historyApprovedMinorLogged p it :: tr) =
      claudeCallsOf tr := rfl

/-- A minor-remediation entry records no REVIEWER call. -/
@[simp] theorem claudeCallsOf_minorOnce (p it : Nat)
    (tr : List BuildEvent) :
    claudeCallsOf (BuildEvent.historyMinorOnce p it :: tr) =
      claudeCallsOf tr := rfl

/-- A max-iterations entry records no REVIEWER call. -/
@[simp] theorem claudeCallsOf_maxIter (p : Nat) (tr : List BuildEvent) :
    claudeCallsOf (BuildEvent.historyMaxIterations p :: tr) =
      claudeCallsOf tr := rfl

/-- A max-iterations warning records no REVIEWER call. -/
@[simp] theorem claudeCallsOf_warnMax (p : Nat) (tr : List BuildEvent) :
    claudeCallsOf (BuildEvent.warnMaxIterations p :: tr) =
      claudeCallsOf tr := rfl

/-- An incorporation call records no REVIEWER call. -/
@[simp] theorem claudeCallsOf_incorp (p it sid : Nat) (r : Bool)
    (tr : List BuildEvent) :
    claudeCallsOf (BuildEvent.incorporationCall p it sid r :: tr) =
      claudeCallsOf tr := rfl

/-- An incorporated entry records no REVIEWER call. -/
@[simp] theorem claudeCallsOf_incorporated (p it : Nat)
    (tr : List BuildEvent) :
    claudeCallsOf (BuildEvent.historyIncorporated p it :: tr) =
      claudeCallsOf tr := rfl

/-- An incorporation-failure entry records no REVIEWER call. -/
@[simp] theorem claudeCallsOf_incorpFailed (p : Nat)
    (tr : List BuildEvent) :
    claudeCallsOf (BuildEvent.historyIncorporateFailed p :: tr) =
      claudeCallsOf tr := rfl

/-- A REVIEWER call is recorded. -/
@[simp] theorem claudeCallsOf_reviewer (p it sid : Nat) (r : Bool)
    (tr : List BuildEvent) :
    claudeCallsOf (BuildEvent.claudeReviewerCall p it sid r :: tr) =
      (sid, r) :: claudeCallsOf tr := rfl

/-- Traces produced by the primary review contain no REVIEWER call. -/
@[simp] theorem claudeCallsOf_primary (cfg : BuildConfig)
    (O : BuildOracles) (p it : Nat) :
    claudeCallsOf (primaryReviewEvents cfg O p it) = [] := by
  unfold primaryReviewEvents claudeCallsOf
  split
  · split <;> rfl
  · rfl

/-- The calls recorded by one Claude REVIEWER round. -/
theorem claudeCallsOf_claude (cfg : BuildConfig) (O : BuildOracles)
    (p it rs : Nat) (fr : Bool) :
    claudeCallsOf (claudeReviewEvents cfg O p it rs fr) =
      (if cfg.buildReviewMode ≠ BuildReviewMode.openaiOnly then
        [(rs, !fr)] else []) := by
  unfold claudeReviewEvents claudeCallsOf
  split
  · split <;> simp_all
  · simp_all

/-- A minor-remediation marker block records no REVIEWER call. -/
@[simp] theorem claudeCallsOf_evM (P : Prop) [Decidable P] (p it : Nat) :
    claudeCallsOf (if P then [BuildEvent.historyMinorOnce p it]
      else []) = [] := by
  split <;> rfl

/-- The first-review flag equals "no REVIEWER call recorded yet". -/
theorem firstRevAfter_eq (cfg : BuildConfig) (O : BuildOracles)
    (p it rs : Nat) (fr : Bool) :
    firstRevAfter cfg fr =
      (fr && (claudeCallsOf
        (claudeReviewEvents cfg O p it rs fr)).isEmpty) := by
  rw [claudeCallsOf_claude]
  unfold firstRevAfter
  split <;> simp

/-- One REVIEWER round obeys the discipline for the current flag. -/
theorem reviewerCallsOK_claudeEvents (cfg : BuildConfig)
    (O : BuildOracles) (p it rs : Nat) (fr : Bool) :
    reviewerCallsOK rs fr
      (claudeCallsOf (claudeReviewEvents cfg O p it rs fr)) = true := by
  rw [claudeCallsOf_claude]
  split <;> simp [reviewerCallsOK]

/-- Emptiness of a concatenation. -/
theorem listIsEmpty_append {α : Type} (a b : List α) :
    (a ++ b).isEmpty = (a.isEmpty && b.isEmpty) := by
  cases a <;> simp [List.isEmpty]

/-- Invariant of the per-phase review loop: its REVIEWER calls all
follow the single-session discipline, and the outgoing flag is up
exactly when no call was made. -/
theorem buildPhaseIterLoop_reviewer_ok (cfg : BuildConfig)
    (O : BuildOracles) (incorp : Nat → Nat → Bool) (p rs bs : Nat) :
    ∀ (fuel : Nat) (fr mu : Bool) (it : Nat),
    reviewerCallsOK rs fr (claudeCallsOf
      (buildPhaseIterLoop cfg O incorp p rs bs fr mu it fuel).1) = true ∧
    (buildPhaseIterLoop cfg O incorp p rs bs fr mu it fuel).2.2 =
      (fr && (claudeCallsOf
        (buildPhaseIterLoop cfg O incorp p rs bs fr mu it fuel).1).isEmpty)
    := by
  intro fuel
  induction fuel with
  | zero =>
    intro fr mu it
    simp [buildPhaseIterLoop, reviewerCallsOK]
  | succ f ih =>
    intro fr mu it
    unfold buildPhaseIterLoop
    split
    · constructor
      · simp [reviewerCallsOK]
      · simp
    split
    · constructor
      · simp [reviewerCallsOK_append, reviewerCallsOK_claudeEvents,
          reviewerCallsOK]
      · rw [firstRevAfter_eq cfg O p it rs fr]
        simp
    split
    · constructor
      · simp [reviewerCallsOK_append, reviewerCallsOK_claudeEvents,
          reviewerCallsOK]
      · rw [firstRevAfter_eq cfg O p it rs fr]
        simp
    split
    · constructor
      · simp [reviewerCallsOK_append, reviewerCallsOK_claudeEvents,
          reviewerCallsOK]
      · rw [firstRevAfter_eq cfg O p it rs fr]
        simp
    split
    · constructor
      · simp [reviewerCallsOK_append, reviewerCallsOK_claudeEvents,
          reviewerCallsOK]
      · rw [firstRevAfter_eq cfg O p it rs fr]
        simp
    · obtain ⟨ih1, ih2⟩ := ih (firstRevAfter cfg fr)
        (mu || (!hasAnyMajorIssues (primaryReviewResult cfg O p it)
          (claudeReviewOpt cfg O p it) &&
          hasOnlyMinorIssues (primaryReviewResult cfg O p it)
            (claudeReviewOpt cfg O p it))) (it + 1)
      constructor
      · simp only [claudeCallsOf_diffCall, claudeCallsOf_append,
          claudeCallsOf_primary, claudeCallsOf_evM, claudeCallsOf_incorp,
          claudeCallsOf_incorporated, claudeCallsOf_nil,
          List.nil_append, List.append_nil]
        rw [reviewerCallsOK_append, ← firstRevAfter_eq cfg O p it rs fr]
        simp [reviewerCallsOK_claudeEvents, ih1]
      · simp only [claudeCallsOf_diffCall, claudeCallsOf_append,
          claudeCallsOf_primary, claudeCallsOf_evM, claudeCallsOf_incorp,
          claudeCallsOf_incorporated, claudeCallsOf_nil,
          List.nil_append, List.append_nil]
        rw [ih2, firstRevAfter_eq cfg O p it rs fr]
        simp [listIsEmpty_append, Bool.and_assoc]

/-- The primary-review events contain no incorporation call. -/
theorem countIncorp_primaryReviewEvents (cfg : BuildConfig)
    (O : BuildOracles) (p it : Nat) :
    (primaryReviewEvents cfg O p it).countP
      (fun e => e.isIncorporation) = 0 := by
  unfold primaryReviewEvents
  split
  · split <;> simp [BuildEvent.isIncorporation]
  · rfl

/-- The Claude REVIEWER events contain no incorporation call. -/
theorem countIncorp_claudeReviewEvents (cfg : BuildConfig)
    (O : BuildOracles) (p it rs : Nat) (fr : Bool) :
    (claudeReviewEvents cfg O p it rs fr).countP
      (fun e => e.isIncorporation) = 0 := by
  unfold claudeReviewEvents
  split
  · split <;> simp [BuildEvent.isIncorporation]
  · rfl

/-- C6: the build-phase loop grants minor-only feedback exactly one
remediation iteration per phase.  When the merged review finds
minor-only issues on the first iteration (and no major issues on either
iteration), the staged diff is non-empty on both iterations, the
iteration cap is at least 2 and the remediation call succeeds, the
per-phase loop makes exactly one incorporation call and stops
non-fatally; a clean second review records the phase as approved, while
a second minor-only review — the budget now consumed — stops with the
minor issues logged rather than iterating again. -/
theorem build_minor_budget_single_remediation
    (cfg : BuildConfig) (O : BuildOracles) (incorp : Nat → Nat → Bool)
    (p rs bs : Nat) (fr : Bool)
    (hd1 : (O.diff p 1).hasChanges = true)
    (hd2 : (O.diff p 2).hasChanges = true)
    (hM1 : hasAnyMajorIssues (primaryReviewResult cfg O p 1)
      (claudeReviewOpt cfg O p 1) = false)
    (hm1 : hasOnlyMinorIssues (primaryReviewResult cfg O p 1)
      (claudeReviewOpt cfg O p 1) = true)
    (hM2 : hasAnyMajorIssues (primaryReviewResult cfg O p 2)
      (claudeReviewOpt cfg O p 2) = false)
    (hmax : 2 ≤ cfg.maxBuildIterations)
    (hinc : incorp p 1 = true) :
    ((buildPhaseIterLoop cfg O incorp p rs bs fr false 1
        cfg.maxBuildIterations).1.countP
      (fun e => e.isIncorporation) = 1 ∧
     (buildPhaseIterLoop cfg O incorp p rs bs fr false 1
        cfg.maxBuildIterations).2.1 = false) ∧
    (hasOnlyMinorIssues (primaryReviewResult cfg O p 2)
        (claudeReviewOpt cfg O p 2) = false →
      BuildEvent.historyApproved p 2 ∈
        (buildPhaseIterLoop cfg O incorp p rs bs fr false 1
          cfg.maxBuildIterations).1) ∧
    (hasOnlyMinorIssues (primaryReviewResult cfg O p 2)
        (claudeReviewOpt cfg O p 2) = true →
      BuildEvent.historyApprovedMinorLogged p 2 ∈
        (buildPhaseIterLoop cfg O incorp p rs bs fr false 1
          cfg.maxBuildIterations).1) := by
  obtain ⟨f, hf⟩ : ∃ f, cfg.maxBuildIterations = f + 2 :=
    ⟨cfg.maxBuildIterations - 2, by omega⟩
  have h4 : ¬ (1 ≥ f + 2) := by omega
  have e1 : buildPhaseIterLoop cfg O incorp p rs bs fr false 1 (f + 2) =
      (BuildEvent.diffCall p 1 :: primaryReviewEvents cfg O p 1 ++
        claudeReviewEvents cfg O p 1 rs fr ++
        [BuildEvent.historyMinorOnce p 1] ++
        [BuildEvent.incorporationCall p 1 bs true,
         BuildEvent.historyIncorporated p 2] ++
        (buildPhaseIterLoop cfg O incorp p rs bs (firstRevAfter cfg fr)
          true 2 (f + 1)).1,
       (buildPhaseIterLoop cfg O incorp p rs bs (firstRevAfter cfg fr)
          true 2 (f + 1)).2.1,
       (buildPhaseIterLoop cfg O incorp p rs bs (firstRevAfter cfg fr)
          true 2 (f + 1)).2.2) := by
    conv_lhs => unfold buildPhaseIterLoop
    simp [hd1, hM1, hm1, hinc, hf, h4]
  have e2A : hasOnlyMinorIssues (primaryReviewResult cfg O p 2)
      (claudeReviewOpt cfg O p 2) = false →
      buildPhaseIterLoop cfg O incorp p rs bs (firstRevAfter cfg fr)
        true 2 (f + 1) =
      (BuildEvent.diffCall p 2 :: primaryReviewEvents cfg O p 2 ++
        claudeReviewEvents cfg O p 2 rs (firstRevAfter cfg fr) ++
        [BuildEvent.historyApproved p 2], false,
        firstRevAfter cfg (firstRevAfter cfg fr)) := by
    intro hm2
    conv_lhs => unfold buildPhaseIterLoop
    simp [hd2, hM2, hm2]
  have e2B : hasOnlyMinorIssues (primaryReviewResult cfg O p 2)
      (claudeReviewOpt cfg O p 2) = true →
      buildPhaseIterLoop cfg O incorp p rs bs (firstRevAfter cfg fr)
        true 2 (f + 1) =
      (BuildEvent.diffCall p 2 :: primaryReviewEvents cfg O p 2 ++
        claudeReviewEvents cfg O p 2 rs (firstRevAfter cfg fr) ++
        [BuildEvent.historyApprovedMinorLogged p 2], false,
        firstRevAfter cfg (firstRevAfter cfg fr)) := by
    intro hm2
    conv_lhs => unfold buildPhaseIterLoop
    simp [hd2, hM2, hm2]
  rw [hf]
  refine ⟨⟨?_, ?_⟩, ?_, ?_⟩
  · rw [e1]
    cases hm2v : hasOnlyMinorIssues (primaryReviewResult cfg O p 2)
        (claudeReviewOpt cfg O p 2) with
    | false =>
      rw [e2A hm2v]
      simp only [List.countP_cons, List.countP_append,
        countIncorp_primaryReviewEvents, countIncorp_claudeReviewEvents]
      simp [BuildEvent.isIncorporation]
    | true =>
      rw [e2B hm2v]
      simp only [List.countP_cons, List.countP_append,
        countIncorp_primaryReviewEvents, countIncorp_claudeReviewEvents]
      simp [BuildEvent.isIncorporation]
  · rw [e1]
    cases hm2v : hasOnlyMinorIssues (primaryReviewResult cfg O p 2)
        (claudeReviewOpt cfg O p 2) with
    | false => rw [e2A hm2v]
    | true => rw [e2B hm2v]
  · intro hm2
    rw [e1, e2A hm2]
    simp
  · intro hm2
    rw [e1, e2B hm2]
    simp

/-- `buildLoop` configuration for the C6 witness: an iteration cap of 3
with the Claude REVIEWER as sole reviewer. -/
def c6cfg : BuildConfig := ⟨3, BuildReviewMode.architectOnly⟩

/-- Oracles for the C6 witness: a one-phase plan whose first review
finds minor-only issues and whose second is clean. -/
def c6O : BuildOracles :=
  ⟨true, true, true, true, true, "## Phase 1: Only phase\nbody",
    fun _ => true, fun _ _ => ⟨"diff", ["f.ts"], true⟩,
    fun _ _ => ⟨false, false, false⟩,
    fun _ it => if it = 1 then ⟨true, false, true⟩
      else ⟨true, false, false⟩⟩

/-- Witness for the C6 theorem at a concrete minor-then-clean build. -/
theorem build_minor_budget_single_remediation_witness :
    ((buildPhaseIterLoop c6cfg c6O (fun _ _ => true) 1 1 0 true false 1
        c6cfg.maxBuildIterations).1.countP
      (fun e => e.isIncorporation) = 1 ∧
     (buildPhaseIterLoop c6cfg c6O (fun _ _ => true) 1 1 0 true false 1
        c6cfg.maxBuildIterations).2.1 = false) ∧
    (hasOnlyMinorIssues (primaryReviewResult c6cfg c6O 1 2)
        (claudeReviewOpt c6cfg c6O 1 2) = false →
      BuildEvent.historyApproved 1 2 ∈
        (buildPhaseIterLoop c6cfg c6O (fun _ _ => true) 1 1 0 true false 1
          c6cfg.maxBuildIterations).1) ∧
    (hasOnlyMinorIssues (primaryReviewResult c6cfg c6O 1 2)
        (claudeReviewOpt c6cfg c6O 1 2) = true →
      BuildEvent.historyApprovedMinorLogged 1 2 ∈
        (buildPhaseIterLoop c6cfg c6O (fun _ _ => true) 1 1 0 true false 1
          c6cfg.maxBuildIterations).1) :=
  build_minor_budget_single_remediation c6cfg c6O (fun _ _ => true)
    1 1 0 true (by decide) (by decide) (by decide) (by decide)
    (by decide) (by decide) (by decide)

/-- A phase-start entry records no REVIEWER call. -/
@[simp] theorem claudeCallsOf_phaseStart (p : Nat)
    (tr : List BuildEvent) :
    claudeCallsOf (BuildEvent.historyPhaseStart p :: tr) =
      claudeCallsOf tr := rfl

/-- A BUILDER call records no REVIEWER call. -/
@[simp] theorem claudeCallsOf_builderCall (sid : Nat) (r : Bool)
    (tr : List BuildEvent) :
    claudeCallsOf (BuildEvent.builderCall sid r :: tr) =
      claudeCallsOf tr := rfl

/-- A builder-done entry records no REVIEWER call. -/
@[simp] theorem claudeCallsOf_builderDone (p : Nat)
    (tr : List BuildEvent) :
    claudeCallsOf (BuildEvent.historyBuilderDone p :: tr) =
      claudeCallsOf tr := rfl

/-- A build-failed entry records no REVIEWER call. -/
@[simp] theorem claudeCallsOf_buildFailed (p : Nat)
    (tr : List BuildEvent) :
    claudeCallsOf (BuildEvent.historyBuildFailed p :: tr) =
      claudeCallsOf tr := rfl

/-- A status write records no REVIEWER call. -/
@[simp] theorem claudeCallsOf_statusUpdate (st : String)
    (tr : List BuildEvent) :
    claudeCallsOf (BuildEvent.statusUpdate st :: tr) =
      claudeCallsOf tr := rfl

/-- An error notification records no REVIEWER call. -/
@[simp] theorem claudeCallsOf_errorShown (site : Nat)
    (tr : List BuildEvent) :
    claudeCallsOf (BuildEvent.errorShown site :: tr) =
      claudeCallsOf tr := rfl

/-- The no-phases warning records no REVIEWER call. -/
@[simp] theorem claudeCallsOf_warnNoPhases (tr : List BuildEvent) :
    claudeCallsOf (BuildEvent.warnNoPhases :: tr) = claudeCallsOf tr :=
  rfl

/-- The completion notification records no REVIEWER call. -/
@[simp] theorem claudeCallsOf_infoComplete (tr : List BuildEvent) :
    claudeCallsOf (BuildEvent.infoComplete :: tr) = claudeCallsOf tr :=
  rfl

/-- Invariant of the outer phase loop: the REVIEWER-session discipline
holds across all phases. -/
theorem buildPhasesLoop_reviewer_ok (cfg : BuildConfig)
    (O : BuildOracles) (incorp : Nat → Nat → Bool) (rs bs : Nat) :
    ∀ (phases : List Phase) (fr : Bool),
    reviewerCallsOK rs fr (claudeCallsOf
      (buildPhasesLoop cfg O incorp rs bs phases fr).1) = true ∧
    (buildPhasesLoop cfg O incorp rs bs phases fr).2.2 =
      (fr && (claudeCallsOf
        (buildPhasesLoop cfg O incorp rs bs phases fr).1).isEmpty) := by
  intro phases
  induction phases with
  | nil =>
    intro fr
    simp [buildPhasesLoop, reviewerCallsOK]
  | cons ph rest ihp =>
    intro fr
    obtain ⟨hiter1, hiter2⟩ := buildPhaseIterLoop_reviewer_ok cfg O incorp
      ph.number rs bs cfg.maxBuildIterations fr false 1
    unfold buildPhasesLoop
    split
    · constructor
      · simp [reviewerCallsOK]
      · simp
    split
    · constructor
      · simpa using hiter1
      · simpa using hiter2
    · obtain ⟨hrest1, hrest2⟩ := ihp
        (buildPhaseIterLoop cfg O incorp ph.number rs bs fr false 1
          cfg.maxBuildIterations).2.2
      constructor
      · simp only [claudeCallsOf_phaseStart, claudeCallsOf_builderCall,
          claudeCallsOf_builderDone, claudeCallsOf_append]
        rw [reviewerCallsOK_append]
        rw [show (fr && (claudeCallsOf (buildPhaseIterLoop cfg O incorp
          ph.number rs bs fr false 1 cfg.maxBuildIterations).1).isEmpty) =
          (buildPhaseIterLoop cfg O incorp ph.number rs bs fr false 1
            cfg.maxBuildIterations).2.2 from hiter2.symm]
        simp [hiter1, hrest1]
      · simp only [claudeCallsOf_phaseStart, claudeCallsOf_builderCall,
          claudeCallsOf_builderDone, claudeCallsOf_append]
        rw [hrest2, hiter2]
        simp [listIsEmpty_append, Bool.and_assoc]

/-- Whole-build invariant: every Claude REVIEWER invocation of a build
uses the one per-build session (id 1), fresh on the first review and
resumed on every subsequent one. -/
theorem executeBuildPhase_reviewer_ok (cfg : BuildConfig)
    (O : BuildOracles) (incorp : Nat → Nat → Bool) :
    reviewerCallsOK 1 true (claudeCallsOf
      (executeBuildPhaseModel cfg O incorp).1) = true := by
  simp only [executeBuildPhaseModel]
  split
  · simp [reviewerCallsOK]
  split
  · simp [reviewerCallsOK]
  split
  · simp [reviewerCallsOK]
  split
  · simp [reviewerCallsOK]
  split
  · simp [reviewerCallsOK]
  split
  · simp [reviewerCallsOK]
  split
  · have := (buildPhasesLoop_reviewer_ok cfg O incorp 1 0
      (parsePlanPhasesFromContent O.planContent) true).1
    simp only [claudeCallsOf_statusUpdate, claudeCallsOf_append,
      claudeCallsOf_infoComplete, claudeCallsOf_nil, List.append_nil]
    simpa using this
  · have := (buildPhasesLoop_reviewer_ok cfg O incorp 1 0
      (parsePlanPhasesFromContent O.planContent) true).1
    simpa using this

/-- C4 (amended): the spec-review, plan-review and code-review providers
backed by the Claude CLI each create a never-before-used session per
invocation and never pass the resume flag — iterating any of them yields
pairwise-distinct session ids, none resumed.  The build loop's Claude
REVIEWER, however, deliberately uses a single per-build session: its
first invocation is fresh and every subsequent invocation in the same
build resumes that session. -/
theorem reviewer_sessions_fresh_except_build_reviewer :
    (∀ n start,
      (∀ c ∈ iterateSessions reviewSpecWithClaudeSession n start,
        c.isResume = false) ∧
      ((iterateSessions reviewSpecWithClaudeSession n start).map
        (fun c => c.sessionId)).Nodup) ∧
    (∀ n start,
      (∀ c ∈ iterateSessions reviewPlanWithClaudeSession n start,
        c.isResume = false) ∧
      ((iterateSessions reviewPlanWithClaudeSession n start).map
        (fun c => c.sessionId)).Nodup) ∧
    (∀ n start,
      (∀ c ∈ iterateSessions reviewCodeWithClaudeSession n start,
        c.isResume = false) ∧
      ((iterateSessions reviewCodeWithClaudeSession n start).map
        (fun c => c.sessionId)).Nodup) ∧
    (∀ (cfg : BuildConfig) (O : BuildOracles)
      (incorp : Nat → Nat → Bool),
      reviewerCallsOK 1 true (claudeCallsOf
        (executeBuildPhaseModel cfg O incorp).1) = true) := by
  have hgen : ∀ (f : Nat → SessionCall × Nat),
      (∀ s, f s = (⟨s, false⟩, s + 1)) →
      ∀ n start,
      (∀ c ∈ iterateSessions f n start, c.isResume = false) ∧
      ((iterateSessions f n start).map (fun c => c.sessionId)).Nodup := by
    intro f hf n start
    rw [iterateSessions_fresh f hf n start]
    constructor
    · intro c hc
      rcases List.mem_map.mp hc with ⟨i, _, rfl⟩
      rfl
    · rw [List.map_map]
      have : ((fun c => SessionCall.sessionId c) ∘
          (fun i => SessionCall.mk i false)) = id := rfl
      rw [this, List.map_id]
      exact List.nodup_range' _ _
  exact ⟨hgen _ (fun _ => rfl), hgen _ (fun _ => rfl),
    hgen _ (fun _ => rfl), executeBuildPhase_reviewer_ok⟩

/-- Witness for the C4 amended theorem: a concrete iterated fresh
provider call and the concrete counterexample build. -/
theorem reviewer_sessions_fresh_except_build_reviewer_witness :
    (⟨7, false⟩ : SessionCall).isResume = false ∧
    reviewerCallsOK 1 true (claudeCallsOf
      (executeBuildPhaseModel c4cfg c4O (fun _ _ => true)).1) = true :=
  ⟨(reviewer_sessions_fresh_except_build_reviewer.1 2 7).1 ⟨7, false⟩
    (by decide),
   reviewer_sessions_fresh_except_build_reviewer.2.2.2 c4cfg c4O
    (fun _ _ => true)⟩

end FeatureWorkflow
